import Mathlib

/-!
Verification development for the Conclave tick scripts (conclave_tick.js and
its sibling variants).  JavaScript strings are modelled as lists of
characters (`Str`); the scripts only manipulate ASCII data, so Lean's
`Char.toLower`/`Char.toUpper` faithfully model `toLowerCase`/`toUpperCase`
on every input the scripts build.  JavaScript numbers that the scripts use
as integer counts/percentages are modelled as `Nat`/`Int`; the single
floating-point multiplication (`remaining * 0.7`) is modelled by a function
that reproduces IEEE-754 double rounding on its actual domain.
-/

/-- JavaScript strings, modelled as lists of characters. -/
abbrev Str := List Char

/-- Converts a Lean string literal to the `Str` model. -/
def strOf (s : String) : Str := s.toList

/-- Model of `String.prototype.toLowerCase` (ASCII fragment). -/
def lowerStr (s : Str) : Str := s.map Char.toLower

/-- Model of `String.prototype.toUpperCase` (ASCII fragment). -/
def upperStr (s : Str) : Str := s.map Char.toUpper

/-- Whitespace test used to model `String.prototype.trim` (ASCII fragment). -/
def isWsChar (c : Char) : Bool := c == ' ' || c == '\t' || c == '\n' || c == '\r'

/-- Model of `String.prototype.trim`. -/
def trimStr (s : Str) : Str :=
  ((s.dropWhile isWsChar).reverse.dropWhile isWsChar).reverse

/-- Model of `hay.includes(needle)` on JavaScript strings. -/
def jsIncludes (hay needle : Str) : Bool := decide (needle <:+: hay)

/-- Model of `snip` from the scripts:
`str.length > n ? str.slice(0, n) + "..." : str`. -/
def snip (s : Str) (n : Nat) : Str :=
  if n < s.length then s.take n ++ strOf "..." else s

/-- Model of `Array.prototype.join(sep)` for an array of strings. -/
def sjoin (sep : Str) : List Str → Str
  | [] => []
  | [x] => x
  | x :: y :: xs => x ++ sep ++ sjoin sep (y :: xs)

/-- Model of `brief.split("\n").map(s => s.trim()).filter(Boolean)[0] || dflt`
from `buildProposal` (part_003, line 189). -/
def firstNonemptyLine (s : Str) (dflt : Str) : Str :=
  match ((s.splitOn '\n').map trimStr).filter (fun x => !x.isEmpty) with
  | [] => dflt
  | x :: _ => x

/-- Topic categories returned by `classifyDebate` (part_003, lines 157-169).
The source represents them as the closed set of strings
oracle / identity / governance / markets / interop / privacy / unknown. -/
inductive Category
  | oracle | identity | governance | markets | interop | privacy | unknown
  deriving DecidableEq, Repr

/-- Keyword set for the oracle category (part_003, line 161). -/
def oracleKeys : List Str :=
  [strOf "oracle", strOf "attestation", strOf "attest", strOf "data feed",
   strOf "offchain", strOf "onchain data"]

/-- Keyword set for the identity category (part_003, line 162). -/
def identityKeys : List Str :=
  [strOf "identity", strOf "reputation", strOf "sybil", strOf "personhood",
   strOf "credential"]

/-- Keyword set for the governance category (part_003, line 163). -/
def governanceKeys : List Str :=
  [strOf "governance", strOf "vote", strOf "voting", strOf "dao", strOf "delegat"]

/-- Keyword set for the markets category (part_003, line 164). -/
def marketsKeys : List Str :=
  [strOf "market", strOf "auction", strOf "orderbook", strOf "amm",
   strOf "liquidity", strOf "pricing"]

/-- Keyword set for the interop category (part_003, line 165). -/
def interopKeys : List Str :=
  [strOf "bridge", strOf "cross-chain", strOf "messaging", strOf "interop"]

/-- Keyword set for the privacy category (part_003, line 166). -/
def privacyKeys : List Str :=
  [strOf "privacy", strOf "zk", strOf "zero knowledge", strOf "confidential"]

/-- Model of the keyword test `arr.some((w) => t.includes(w))` used by
`classifyDebate`. -/
def hasAnyKey (t : Str) (keys : List Str) : Bool :=
  keys.any (fun w => jsIncludes t w)

/-- Model of `classifyDebate` (part_003, lines 157-169). -/
def classifyDebate (text : Str) : Category :=
  let t := lowerStr text
  if hasAnyKey t oracleKeys then .oracle
  else if hasAnyKey t identityKeys then .identity
  else if hasAnyKey t governanceKeys then .governance
  else if hasAnyKey t marketsKeys then .markets
  else if hasAnyKey t interopKeys then .interop
  else if hasAnyKey t privacyKeys then .privacy
  else .unknown

/-- The five template blocks stored per known category in `buildProposal`
(part_003, lines 192-235). -/
structure TemplateBlocks where
  mech : Str
  design : Str
  incent : Str
  attacks : Str
  trade : Str

/-- Model of the `templates[category]` lookup in `buildProposal`:
the object literal has exactly the six known categories as keys, so an
unknown category yields no blocks (JavaScript `undefined`). -/
def templateBlocks : Category → Option TemplateBlocks
  | .oracle => some
    { mech := strOf "Optimistic oracle. Bonded proposer posts data + commitment; anyone can dispute in a window. Dispute triggers a verification game (fraud proof or bonded arbitration) with slashing."
      design := strOf "DataFeedRegistry + BondVault + DisputeGame. Proposals commit to (value, timestamp, merkle/source commitment). Finalization writes to registry; slashing pays honest side."
      incent := strOf "Bonds scale with value-at-risk. Honest proposers earn fees; dishonest lose bond. Challengers get paid when correct so monitoring is profitable."
      attacks := strOf "bribery (bonds + open challengers), withholding (multi-proposer epochs + last-good fallback), griefing (bond per dispute + rate limits)."
      trade := strOf "dispute window adds latency, but security is enforceable without trusted parties." }
  | .identity => some
    { mech := strOf "Sybil resistance via staged reputation: time + stake + verifiable contributions, with optional zk proofs for predicates. No one-shot identity claims."
      design := strOf "Identity commitments + staked attesters + zk verifier. Attesters are slashable for contradictory attestations. Actions gated by reputation tiers."
      incent := strOf "Attesters earn fees but are slashable. Users earn influence over time. High-risk actions require higher rep or locked stake."
      attacks := strOf "collusion (diverse attesters + slashing), farming (maturation + lockups), privacy leaks (commitments + zk predicates)."
      trade := strOf "harder onboarding, but real sybil resistance and credibility." }
  | .governance => some
    { mech := strOf "Two-house governance: token vote + contribution reputation vote. Proposal passes only if both approve. Timelock plus constrained emergency veto."
      design := strOf "GovernorCore + RepHouse. Reputation decays and is earned via onchain verifiable actions. Snapshot voting; timelocked execution."
      incent := strOf "Limits whale capture while still respecting capital at risk. Contributors gain influence by shipping, not by buying votes."
      attacks := strOf "vote buying (lockups), capture (dual thresholds + timelock), rep gaming (decay + verifiable actions)."
      trade := strOf "slower decisions, higher legitimacy and resilience." }
  | .markets => some
    { mech := strOf "Hybrid AMM with dynamic fees plus batch auctions for large trades to reduce MEV and improve discovery in thin liquidity."
      design := strOf "Pool with volatility-based fee curve + auction module. Optional intent flow reduces sandwiching; TWAP safeguards for updates."
      incent := strOf "LPs earn more in volatility; traders get better execution; MEV opportunities are constrained by auctions."
      attacks := strOf "MEV (batching), oracle manipulation (TWAP + dispute-able oracle), LP dilution (dynamic fees + withdrawal delay)."
      trade := strOf "more complexity, better execution under stress." }
  | .interop => some
    { mech := strOf "Cross-chain messaging using light clients where possible and optimistic bonded relays otherwise, with fraud proofs and dispute windows."
      design := strOf "Router + LightClientVerifier + OptimisticInbox. Light-client verifies headers. Optimistic path uses bonded relayers and open fraud proving."
      incent := strOf "Relayers earn fees; fraud provers earn slashed bonds; security scales with route risk."
      attacks := strOf "collusion (large bonds + open proving), reorg risk (confirm thresholds), DoS (fees + rate limits)."
      trade := strOf "latency, but strong security without trusted committees." }
  | .privacy => some
    { mech := strOf "zk proofs for private state transitions. Separate spend vs view keys. Optional selective disclosure for compliance."
      design := strOf "Verifier + encrypted commitments + nullifiers to prevent double spend. Batch proofs to reduce cost; relayers to hide origin."
      incent := strOf "Users pay for proof verification; relayers paid to improve privacy; fees fund verifier ops."
      attacks := strOf "proof bugs (audits + timelocked upgrades), metadata leaks (batching + relayers), spam (fees + deposits)."
      trade := strOf "higher cost, privacy and composability increase." }
  | .unknown => none

/-- The `body` array join of `buildProposal` (part_003, lines 240-255). -/
def proposalBody (intro : Str) (blocks : TemplateBlocks) : Str :=
  sjoin (strOf "\n")
    [strOf "Title: Practical design for this brief",
     intro,
     [],
     strOf "Mechanism: " ++ blocks.mech,
     [],
     strOf "Onchain Design: " ++ blocks.design,
     [],
     strOf "Incentives: " ++ blocks.incent,
     [],
     strOf "Attack Vectors + Mitigations: " ++ blocks.attacks,
     [],
     strOf "Tradeoffs: " ++ blocks.trade,
     [],
     strOf "Why this wins: enforceable incentives + explicit failure handling, not slogans."]

/-- Model of `buildProposal` (part_003, lines 187-258). -/
def buildProposal (text : Str) (category : Category) : Option Str :=
  let brief := trimStr text
  let briefOneLine := firstNonemptyLine brief (strOf "Debate brief")
  let intro := strOf "Problem (restated): " ++ snip briefOneLine 140
  match templateBlocks category with
  | none => none
  | some blocks => some (snip (proposalBody intro blocks) 2800)

example : classifyDebate (strOf "This proposal is about a decentralized price oracle feed") =
    Category.oracle := by decide

example : (buildProposal [] Category.unknown) = none := rfl

/-- Uppercase ASCII letter test, modelling the character class used by the
regexes in `makeTickerFromTheme` (part_001, lines 305-345). -/
def isUpperAlpha (c : Char) : Bool := 'A' ≤ c && c ≤ 'Z'

/-- Model of `.replace(/[^A-Z ]/g, " ")` applied characterwise. -/
def keepUpperOrSpace (c : Char) : Char :=
  if isUpperAlpha c || c == ' ' then c else ' '

/-- Model of `.split(/\s+/).filter(Boolean)`.  At its call site the input has
already had every character outside `[A-Z ]` replaced by a space, so the only
whitespace present is the space character and splitting on space runs is
exact. -/
def splitWsRuns (l : Str) : List Str :=
  (l.splitOn ' ').filter (fun w => !w.isEmpty)

/-- The word list `t` computed at the top of `makeTickerFromTheme`:
`normalizeStr(theme).toUpperCase().replace(/[^A-Z ]/g, " ").split(/\s+/).filter(Boolean)`. -/
def makeTickerWords (theme : Str) : List Str :=
  splitWsRuns ((upperStr (trimStr theme)).map keepUpperOrSpace)

/-- The `picks` array built from keyword tests in `makeTickerFromTheme`. -/
def tickerPicks (keywords : Str) : List Str :=
  (if jsIncludes keywords (strOf "PROVENANCE") then [strOf "TRACE"] else []) ++
  (if jsIncludes keywords (strOf "AUTHENTIC") then [strOf "AUTH"] else []) ++
  (if jsIncludes keywords (strOf "SUPPLY") then [strOf "CHAIN"] else []) ++
  (if jsIncludes keywords (strOf "PHYSICAL") then [strOf "TAG"] else []) ++
  (if jsIncludes keywords (strOf "GOODS") then [strOf "PROOF"] else []) ++
  (if jsIncludes keywords (strOf "ONCHAIN") || jsIncludes keywords (strOf "ON")
   then [strOf "ATTEST"] else [])

/-- Model of the `for (const p of picks)` loop in `makeTickerFromTheme`:
first pick whose letters-only form has length 3-6 is returned (length above
6 is cut to 6). -/
def pickLoop : List Str → Option Str
  | [] => none
  | p :: rest =>
    let s := p.filter isUpperAlpha
    if 3 ≤ s.length && s.length ≤ 6 then some s
    else if 6 < s.length then some (s.take 6)
    else pickLoop rest

/-- One step of the seed hash in `makeTickerFromTheme`:
`h = (h * 31 + seed.charCodeAt(i)) >>> 0`.  The intermediate value stays
below 2^53, so the double arithmetic is exact and `>>> 0` is reduction
mod 2^32. -/
def jsHashStep (h : Nat) (c : Char) : Nat := (h * 31 + c.toNat) % 4294967296

/-- The full seed hash loop of `makeTickerFromTheme`. -/
def jsHash (seed : Str) : Nat := seed.foldl jsHashStep 0

/-- The alphabet used by the hash fallback of `makeTickerFromTheme`. -/
def lettersStr : Str := strOf "ABCDEFGHIJKLMNOPQRSTUVWXYZ"

/-- The letter-building loop of the hash fallback: four iterations of
`out += letters[h % 26]; h = (h / 26) >>> 0`.  For `h < 2^32` the double
division followed by `>>> 0` is exact truncating division. -/
def hashLetters : Nat → Nat → Str
  | 0, _ => []
  | i + 1, h => lettersStr.getD (h % 26) 'A' :: hashLetters i (h / 26)

/-- Model of `makeTickerFromTheme` (part_001, lines 305-345). -/
def makeTickerFromTheme (theme : Str) (fallbackSeed : Str) : Str :=
  let t := makeTickerWords theme
  let keywords := sjoin (strOf " ") t
  match pickLoop (tickerPicks keywords) with
  | some s => s
  | none =>
    let init := ((t.take 3).flatMap (fun w => w.take 1)).filter isUpperAlpha
    if 3 ≤ init.length then init.take 6
    else
      let seed := trimStr (if fallbackSeed.isEmpty then strOf "SEED" else fallbackSeed)
      (hashLetters 4 (jsHash seed)).take 6

/-- Stable insertion of an element into a list already sorted by the
may-precede relation `le`: the element is placed before the first entry that
does not strictly precede it. -/
def insertOrd (le : α → α → Bool) (a : α) : List α → List α
  | [] => [a]
  | b :: bs => if le b a && !(le a b) then b :: insertOrd le a bs else a :: b :: bs

/-- Stable sort by the may-precede relation `le`.  `Array.prototype.sort`
with a numeric comparator is a stable sort for the total preorder the
comparator induces, and the stably sorted permutation of a list is unique,
so this structural insertion sort is extensionally the sort the scripts
run. -/
def sortOrd (le : α → α → Bool) : List α → List α
  | [] => []
  | x :: xs => insertOrd le x (sortOrd le xs)

theorem insertOrd_perm (le : α → α → Bool) (a : α) (l : List α) :
    (insertOrd le a l).Perm (a :: l) := by
  induction l with
  | nil => exact List.Perm.refl _
  | cons b bs ih =>
    simp only [insertOrd]
    split
    · exact ((ih.cons b).trans (List.Perm.swap a b bs))
    · exact List.Perm.refl _

theorem sortOrd_perm (le : α → α → Bool) (l : List α) :
    (sortOrd le l).Perm l := by
  induction l with
  | nil => exact List.Perm.refl _
  | cons x xs ih =>
    exact (insertOrd_perm le x (sortOrd le xs)).trans (ih.cons x)

theorem mem_sortOrd {le : α → α → Bool} {a : α} {l : List α} :
    a ∈ sortOrd le l ↔ a ∈ l :=
  (sortOrd_perm le l).mem_iff

/-- Candidate debate objects as consumed by the selector and join code.
Numeric ids use `0` for a missing/falsy `d.id`; `phase = []` models both an
absent and an empty phase string (the scripts normalise with
`String(p || "")`, collapsing the two); the three player-count fields use
`0` for absent, matching the `Number(x || 0)` / `Number(x ?? 0)`
normalisations. -/
structure Debate where
  id : Nat := 0
  phase : Str := []
  playerCount : Nat := 0
  currentPlayers : Nat := 0
  players : Nat := 0
  participants : Nat := 0
  deriving DecidableEq, Repr

/-- Model of `debateHasRoom` (conclave_tick.js, lines 59-64). -/
def debateHasRoom (d : Debate) : Bool :=
  if 0 < d.playerCount then decide (d.currentPlayers < d.playerCount) else true

/-- Model of `phaseRank` from the first conclave_tick.js variant
(lines 66-73). -/
def phaseRankV1 (p : Str) : Nat :=
  let p := lowerStr p
  if p = strOf "propose" then 0
  else if p = strOf "debate" then 1
  else if p = strOf "allocation" then 2
  else 3

/-- Comparator of `orderDebates` (conclave_tick.js, lines 75-92), expressed
as the may-precede relation used by a stable sort: phase rank ascending,
then has-room first, then fewer current players. -/
def v1Le (a b : Debate) : Bool :=
  let pa := phaseRankV1 a.phase
  let pb := phaseRankV1 b.phase
  if pa ≠ pb then decide (pa < pb)
  else
    let ra : Nat := if debateHasRoom a then 0 else 1
    let rb : Nat := if debateHasRoom b then 0 else 1
    if ra ≠ rb then decide (ra < rb)
    else decide (a.currentPlayers ≤ b.currentPlayers)

/-- Model of `orderDebates` (conclave_tick.js, lines 75-92): a stable sort
by the three-level comparator; no filtering happens here. -/
def orderDebatesV1 (debates : List Debate) : List Debate :=
  sortOrd v1Le debates

/-- The ordered candidate list actually used by the first variant's join
loop: `orderDebates(debates).filter(debateHasRoom)` (conclave_tick.js,
line 128). -/
def selectOrderV1 (debates : List Debate) : List Debate :=
  (orderDebatesV1 debates).filter debateHasRoom

/-- Model of `phaseNorm` (conclave_tick.js, lines 268-270):
`String(p || "").trim().toLowerCase()`. -/
def phaseNormStr (p : Str) : Str := lowerStr (trimStr p)

/-- Model of `isJoinableDebate` (conclave_tick.js, lines 272-282). -/
def isJoinableDebate (d : Debate) : Bool :=
  let p := phaseNormStr d.phase
  if p.isEmpty then true
  else if p = strOf "ended" || p = strOf "results" || p = strOf "closed" then false
  else if d.playerCount ≠ 0 && d.playerCount ≤ d.currentPlayers then false
  else true

/-- Model of the `phaseWeight` table inside `pickDebatesOrdered`
(conclave_tick.js, lines 285-291). -/
def phaseWeightV2 (p : Str) : Nat :=
  let p := phaseNormStr p
  if p = strOf "proposal" || p = strOf "propose" then 40
  else if p = strOf "debate" then 30
  else if p = strOf "allocation" then 20
  else 10

/-- Model of `Number(d.currentPlayers || d.players || d.participants || 0)`. -/
def curCoalesced (d : Debate) : Nat :=
  if d.currentPlayers ≠ 0 then d.currentPlayers
  else if d.players ≠ 0 then d.players
  else d.participants

/-- Model of `pickDebatesOrdered` (conclave_tick.js, lines 284-303): filter
by `isJoinableDebate`, score by phase weight plus capped player count, then
stable sort descending by score. -/
def pickDebatesOrdered (debates : List Debate) : List Debate :=
  let scored := (debates.filter isJoinableDebate).map
    (fun d => (d, phaseWeightV2 d.phase + min (curCoalesced d) 10))
  (sortOrd (fun a b => decide (b.2 ≤ a.2)) scored).map Prod.fst

/-- Model of `joinableDebate` (part_001, lines 261-270). -/
def joinableDebate (d : Debate) : Bool :=
  let p := phaseNormStr d.phase
  if d.id = 0 then false
  else if !debateHasRoom d then false
  else if p = strOf "ended" || p = strOf "results" then false
  else if p = strOf "propose" || p = strOf "proposal" || p = strOf "debate"
       || p = strOf "allocation" then true
  else true

example :
    pickDebatesOrdered
      [{ id := 1, phase := strOf "ended" },
       { id := 2, phase := strOf "debate", currentPlayers := 0, playerCount := 5 }] =
    [{ id := 2, phase := strOf "debate", currentPlayers := 0, playerCount := 5 }] := by
  decide

example :
    selectOrderV1
      [{ id := 1, phase := strOf "ended" },
       { id := 2, phase := strOf "debate", currentPlayers := 0, playerCount := 5 }] =
    [{ id := 2, phase := strOf "debate", currentPlayers := 0, playerCount := 5 },
     { id := 1, phase := strOf "ended" }] := by
  decide

example : (makeTickerFromTheme [] []).length = 4 := by decide

/-- Idea records as consumed by `buildAllocations` (conclave_tick.js,
lines 340-410).  `ticker = []` models an absent/empty ticker (the script
normalises with `String(x.ticker || "")`); `comments`/`refined` model the
already-coalesced `Number(x.commentCount || x.comments || 0)` and
`Number(x.refineCount || x.refinedCount || 0)`. -/
structure IdeaA where
  ideaId : Option Str := none
  ticker : Str := []
  comments : Nat := 0
  refined : Nat := 0
  deriving DecidableEq, Repr

/-- JavaScript truthiness of an idea identifier: absent (`undefined`) and
the empty string are falsy. -/
def truthyId : Option Str → Bool
  | none => false
  | some s => !s.isEmpty

/-- One allocation entry `{ideaId, percentage}`. -/
structure AllocEntry where
  ideaId : Str
  percentage : Int
  deriving DecidableEq, Repr

/-- Result of `buildAllocations`.  The function returns `null`, or (in its
no-own-idea branch, line 381) the bare entry array, or (line 409) the
wrapped object `{allocations}`. -/
inductive AllocResult
  | null
  | raw (entries : List AllocEntry)
  | wrapped (entries : List AllocEntry)
  deriving DecidableEq, Repr

/-- Model of `Math.floor(remaining * 0.7)` (conclave_tick.js, line 386) in
IEEE-754 double arithmetic for the integer values `remaining` takes there
(40..100, plus 100 for the missing-self-id path): the product rounds below
the exact value only at `remaining = 90`, where the double is
62.99999999999999 and the floor is 62; everywhere else it equals
`floor(7r/10)`. -/
def jsFloor07 (r : Int) : Int := if r = 90 then 62 else (7 * r).fdiv 10

/-- The activity score `comments * 2 + refined * 3` (conclave_tick.js,
line 353). -/
def scoreA (x : IdeaA) : Nat := x.comments * 2 + x.refined * 3

/-- Model of `a[a.length - 1].percentage += d` on an entry array. -/
def bumpLast (l : List AllocEntry) (d : Int) : List AllocEntry :=
  match l with
  | [] => []
  | [e] => [{ e with percentage := e.percentage + d }]
  | e :: e2 :: rest => e :: bumpLast (e2 :: rest) d

/-- The no-own-idea branch of `buildAllocations` (conclave_tick.js,
lines 374-382): allocate 60/40 to the top two scored ideas, or fail when a
second identified idea is missing (after `a[0].percentage = 100` the
array still has fewer than 2 entries, so null is returned). -/
def noMineBranch (second : IdeaA) (othersTail : List IdeaA) : AllocResult :=
  match othersTail with
  | next :: _ =>
    if truthyId next.ideaId then
      .raw [⟨second.ideaId.getD [], 60⟩, ⟨next.ideaId.getD [], 40⟩]
    else .null
  | [] => .null

/-- The own-idea branch of `buildAllocations` (conclave_tick.js,
lines 384-409): split the remaining percentage over one or two top others,
fix rounding drift on the last entry, validate positivity and entry count,
and clamp any entry above 60 (redistributing the clipped excess onto the
last entry). -/
def mineBranch (a0 : List AllocEntry) (pickCount : Nat) (remaining : Int)
    (second : IdeaA) (othersTail : List IdeaA) : AllocResult :=
  let a1 :=
    match othersTail with
    | third :: _ =>
      if 3 ≤ pickCount ∧ truthyId third.ideaId then
        let p2 := jsFloor07 remaining
        let p3 := remaining - p2
        a0 ++ [⟨second.ideaId.getD [], p2⟩, ⟨third.ideaId.getD [], p3⟩]
      else a0 ++ [⟨second.ideaId.getD [], remaining⟩]
    | [] => a0 ++ [⟨second.ideaId.getD [], remaining⟩]
  let total := (a1.map (·.percentage)).sum
  let a2 := if total ≠ 100 then bumpLast a1 (100 - total) else a1
  if a2.any (fun z => z.percentage ≤ 0) then .null
  else if a2.length < 2 then .null
  else
    let a3 :=
      if a2.any (fun z => 60 < z.percentage) then
        let c := a2.map (fun z => { z with percentage := min z.percentage 60 })
        bumpLast c (100 - (c.map (·.percentage)).sum)
      else a2
    .wrapped a3

/-- Model of `buildAllocations` (conclave_tick.js, lines 340-410).
`selfAllocPct` models `Math.floor(numEnv("CONCLAVE_SELF_ALLOC_PCT", 60))`,
the integer the script derives from its configuration (default 60). -/
def buildAllocations (ideas : List IdeaA) (myTicker : Str) (selfAllocPct : Int) :
    AllocResult :=
  let list := ideas
  if list.length < 2 then .null else
  let mine := list.find? (fun x => upperStr x.ticker == upperStr myTicker)
  let others0 := list.filter (fun x =>
    match mine with
    | none => true
    | some m => !(x.ideaId == m.ideaId))
  let others := sortOrd (fun a b => decide (scoreA b.1 ≤ scoreA a.1))
    (others0.map (fun x => (x, scoreA x))) |>.map Prod.fst
  let maxSelf : Int := min 60 (max 0 selfAllocPct)
  let pickCount : Nat := max 2 (min 3 (1 + others.length))
  let a0 : List AllocEntry :=
    match mine with
    | some m => if truthyId m.ideaId then [⟨m.ideaId.getD [], maxSelf⟩] else []
    | none => []
  let remaining : Int := 100 - (match a0.head? with | some e => e.percentage | none => 0)
  match others with
  | [] => .null
  | second :: othersTail =>
    if !truthyId second.ideaId then .null else
    match mine with
    | none => noMineBranch second othersTail
    | some _ => mineBranch a0 pickCount remaining second othersTail

/-- One comment object on an idea: the script reads
`String(c.message || c.text || "")` and `String(c.id || c.commentId)`,
modelled as the coalesced fields `msg` and `cid`. -/
structure CommentP3 where
  msg : Str := []
  cid : Str := []
  deriving DecidableEq, Repr

/-- Idea records as consumed by part_003 (`buildAutoAllocations`,
`findSelfIdea`, comment extraction).  Every scalar field is read through
JavaScript truthiness or `String(...)`, so the empty list models an absent
field.  `authorVals` lists the values present on the author-ish keys
scanned by `findSelfIdea` (name, agentName, proposer, ..., ownerName) in
key order; `commentsArr` models the coalesced
`idea.comments || idea.commentary || idea.replies` array. -/
structure IdeaP3 where
  ideaId : Str := []
  id : Str := []
  ticker : Str := []
  description : Str := []
  authorVals : List Str := []
  commentsArr : List CommentP3 := []
  deriving DecidableEq, Repr

/-- Model of `String(it.ideaId || it.id)`. -/
def idOfP3 (x : IdeaP3) : Str := if x.ideaId.isEmpty then x.id else x.ideaId

/-- The usability filter of `buildAutoAllocations` (part_003, line 358):
`x && (x.ideaId || x.id) && x.ticker`. -/
def usableP3 (x : IdeaP3) : Bool :=
  (!x.ideaId.isEmpty || !x.id.isEmpty) && !x.ticker.isEmpty

/-- One allocation entry of `buildAutoAllocations`; its percentages never
go negative, so `Nat` is exact. -/
structure AEntry where
  ideaId : Str
  percentage : Nat
  deriving DecidableEq, Repr, Inhabited

/-- Result of `buildAutoAllocations`: `null`, the allocation object, or a
marker for non-termination of its `while` loop (proved unreachable). -/
inductive AutoResult
  | null
  | ok (entries : List AEntry)
  | diverge
  deriving DecidableEq, Repr

/-- Model of `allocs[i].percentage += 1` (in-bounds at every use: the loop
index is always reduced mod the array length). -/
def bumpAt : List AEntry → Nat → List AEntry
  | [], _ => []
  | e :: rest, 0 => { e with percentage := e.percentage + 1 } :: rest
  | e :: rest, i + 1 => e :: bumpAt rest i

/-- Model of the remainder-distribution loop of `buildAutoAllocations`
(part_003, lines 383-390):
`while (rem2 > 0 && allocs.length > 0) { if (allocs[idx].percentage < 60)
{ allocs[idx].percentage += 1; rem2 -= 1; } idx = (idx + 1) % allocs.length; }`.
The JavaScript loop has no fuel; the fuel argument makes the model total
and `none` marks fuel exhaustion, which stands for divergence of the
source loop. -/
def distLoop : Nat → List AEntry → Nat → Nat → Option (List AEntry)
  | 0, allocs, rem2, _ => if rem2 = 0 ∨ allocs.isEmpty then some allocs else none
  | fuel + 1, allocs, rem2, idx =>
    if rem2 = 0 ∨ allocs.isEmpty then some allocs
    else if (allocs.getD idx default).percentage < 60 then
      distLoop fuel (bumpAt allocs idx) (rem2 - 1) ((idx + 1) % allocs.length)
    else distLoop fuel allocs rem2 ((idx + 1) % allocs.length)

/-- Model of `buildAutoAllocations` (part_003, lines 356-397).  `selfPct`
models the configured `CONCLAVE_SELF_ALLOC_PCT` number after `Math.floor`;
`selfTickerEnv` models the raw `CONCLAVE_SELF_TICKER` value ([] = unset).
`others = list.filter((x) => x !== selfIdea)` removes, by reference, exactly
the found array slot, modelled by erasing the found index. -/
def buildAutoAllocations (ideas : List IdeaP3) (selfPct : Int) (selfTickerEnv : Str) :
    AutoResult :=
  let pctSelf : Nat := (max 0 (min 60 selfPct)).toNat
  let list := ideas.filter usableP3
  if list.length < 2 then .null else
  let selfTicker := upperStr (trimStr selfTickerEnv)
  let si : Option Nat :=
    if selfTicker.isEmpty then none
    else list.findIdx? (fun x => upperStr x.ticker == selfTicker)
  let selfIdea : Option IdeaP3 := si.bind (fun i => list.get? i)
  let allocs0 : List AEntry :=
    match selfIdea with
    | some s => if 0 < pctSelf then [⟨idOfP3 s, pctSelf⟩] else []
    | none => []
  let remaining : Nat := 100 - (allocs0.map (·.percentage)).sum
  let others : List IdeaP3 :=
    match si with
    | none => list
    | some i => list.eraseIdx i
  if others.length < 2 ∧ allocs0.length = 0 then .null else
  let k := min 4 (max 2 others.length)
  let slice := others.take k
  let base := remaining / k
  let used := base * slice.length
  let allocs1 := allocs0 ++ slice.map (fun it => ⟨idOfP3 it, base⟩)
  let rem2 := remaining - used
  match distLoop (rem2 * allocs1.length + allocs1.length) allocs1 rem2 0 with
  | none => .diverge
  | some allocs2 =>
    let total := (allocs2.map (·.percentage)).sum
    if allocs2.length < 2 ∨ total ≠ 100 then .null
    else if allocs2.any (fun a => 60 < a.percentage) then .null
    else .ok allocs2

example :
    buildAllocations
      [{ ideaId := some (strOf "A"), ticker := strOf "SMOKE" },
       { ideaId := some (strOf "B"), ticker := strOf "OTHR" }]
      (strOf "SMOKE") 1 =
    .wrapped [⟨strOf "A", 1⟩, ⟨strOf "B", 99⟩] := by decide

example :
    buildAutoAllocations
      [{ ideaId := strOf "A", ticker := strOf "AAA" },
       { ideaId := strOf "B", ticker := strOf "BBB" }]
      5 [] =
    .ok [⟨strOf "A", 50⟩, ⟨strOf "B", 50⟩] := by decide

/-- Outcome of one `POST /debates/{id}/join` call as the join loops classify
it: HTTP 200, a soft rejection (error text matching the retry patterns), or
any other (hard) failure. -/
inductive JoinOutcome
  | success | soft | hard
  deriving DecidableEq, Repr

/-- Number of join POSTs a join loop issues when walking the given
candidate list: a candidate with a falsy id is skipped without a call, a
soft rejection moves to the next candidate, and a success or hard failure
stops the loop.  `resp` is the response oracle indexed by loop position. -/
def countJoinsFrom (resp : Nat → JoinOutcome) : List Debate → Nat → Nat
  | [], _ => 0
  | d :: ds, idx =>
    if d.id = 0 then countJoinsFrom resp ds (idx + 1)
    else
      match resp idx with
      | .soft => 1 + countJoinsFrom resp ds (idx + 1)
      | _ => 1

/-- Join POSTs issued by the first variant's loop (conclave_tick.js,
lines 136-160): it walks `orderDebates(debates).filter(debateHasRoom)` for
at most `Math.min(10, ordered.length)` positions. -/
def joinAttemptsV1 (debates : List Debate) (resp : Nat → JoinOutcome) : Nat :=
  let ordered := selectOrderV1 debates
  countJoinsFrom resp (ordered.take (min 10 ordered.length)) 0

/-- Join POSTs issued by the second variant's loop (conclave_tick.js,
lines 485-519): it walks `pickDebatesOrdered(debates)` for at most
`Math.min(numEnv("CONCLAVE_MAX_JOIN_ATTEMPTS", 5), ordered.length)`
positions.  `cap` models the configured `CONCLAVE_MAX_JOIN_ATTEMPTS`
value (default 5). -/
def joinAttemptsV2 (cap : Int) (debates : List Debate) (resp : Nat → JoinOutcome) :
    Nat :=
  let ordered := pickDebatesOrdered debates
  countJoinsFrom resp (ordered.take (min cap (ordered.length : Int)).toNat) 0

theorem countJoinsFrom_le_length (resp : Nat → JoinOutcome) :
    ∀ (l : List Debate) (idx : Nat), countJoinsFrom resp l idx ≤ l.length := by
  intro l
  induction l with
  | nil => intro idx; simp [countJoinsFrom]
  | cons d ds ih =>
    intro idx
    simp only [countJoinsFrom, List.length_cons]
    split
    · exact le_trans (ih (idx + 1)) (Nat.le_succ _)
    · split
      · have := ih (idx + 1); omega
      · omega

/-- Twelve well-formed joinable candidates used to exhibit the configurable
join-attempt cap. -/
def twelveDebates : List Debate :=
  [{ id := 1, phase := strOf "debate" }, { id := 2, phase := strOf "debate" },
   { id := 3, phase := strOf "debate" }, { id := 4, phase := strOf "debate" },
   { id := 5, phase := strOf "debate" }, { id := 6, phase := strOf "debate" },
   { id := 7, phase := strOf "debate" }, { id := 8, phase := strOf "debate" },
   { id := 9, phase := strOf "debate" }, { id := 10, phase := strOf "debate" },
   { id := 11, phase := strOf "debate" }, { id := 12, phase := strOf "debate" }]

example : joinAttemptsV2 12 twelveDebates (fun _ => .soft) = 12 := by decide

/-- Model of `buildRefinement` (part_003, lines 330-337). -/
def buildRefinement (text : Str) (category : Category) : Option Str :=
  match buildProposal text category with
  | none => none
  | some proposal =>
    some (snip (proposal ++ strOf "\n\nRefinement: Explicitly mapping to the brief constraints (no trusted parties, no multisigs, no reputation dependency). Security comes from bonded incentives, open disputing, and verifiable resolution.") 3000)

/-- Model of `buildTicker` (part_003, lines 171-185). -/
def buildTicker (text : Str) (category : Category) : Option Str :=
  let t := upperStr text
  if jsIncludes t (strOf "CONCLAVE") && jsIncludes t (strOf "SMOKE") then
    some (strOf "SMOKE")
  else
    match category with
    | .oracle => some (strOf "ORCL")
    | .identity => some (strOf "IDNT")
    | .governance => some (strOf "GOV")
    | .markets => some (strOf "MKT")
    | .interop => some (strOf "XMSG")
    | .privacy => some (strOf "ZKPR")
    | .unknown => none

/-- Debate objects as consumed by part_003's join path.  Ids there are
interpolated as strings and tested for truthiness, so `[]` models a falsy
id; `briefRaw` models `String(d.brief)` when `d.brief` is truthy. -/
structure DebateP3 where
  id : Str := []
  phase : Str := []
  currentPlayers : Nat := 0
  players : Nat := 0
  participants : Nat := 0
  briefTheme : Str := []
  briefDesc : Str := []
  briefRaw : Str := []
  title : Str := []
  topic : Str := []
  prompt : Str := []
  question : Str := []
  description : Str := []
  deriving DecidableEq, Repr

/-- Model of `debateText` (part_003, lines 144-155). -/
def debateTextP3 (d : DebateP3) : Str :=
  trimStr (sjoin (strOf "\n")
    ((if !d.briefTheme.isEmpty then [d.briefTheme] else []) ++
     (if !d.briefDesc.isEmpty then [d.briefDesc] else []) ++
     (if !d.briefRaw.isEmpty then [d.briefRaw] else []) ++
     (if !d.title.isEmpty then [d.title] else []) ++
     (if !d.topic.isEmpty then [d.topic] else []) ++
     (if !d.prompt.isEmpty then [d.prompt] else []) ++
     (if !d.question.isEmpty then [d.question] else []) ++
     (if !d.description.isEmpty then [d.description] else [])))

/-- Result of `buildJoinBodyForDebate` (part_003, lines 339-354); the join
body text itself is a notification-payload detail and is not modelled,
only the skip decision and the derived category/ticker. -/
structure JoinBuilt where
  skip : Bool
  category : Category := .unknown
  ticker : Str := []
  deriving DecidableEq, Repr

/-- Model of `buildJoinBodyForDebate` (part_003, lines 339-354). -/
def buildJoinBodyForDebate (d : DebateP3) : JoinBuilt :=
  let text := debateTextP3 d
  let category := classifyDebate text
  if category = .unknown then { skip := true }
  else
    match buildProposal text category with
    | none => { skip := true }
    | some _ =>
      let ticker := buildTicker text category
      { skip := false, category,
        ticker := upperStr (trimStr (ticker.getD (strOf "IDEA"))) }

/-- Model of the `phaseWeight` table of part_003's `pickDebatesOrdered`
(lines 127-133). -/
def phaseWeightP3 (p : Str) : Nat :=
  let p := lowerStr p
  if p = strOf "debate" then 30
  else if p = strOf "allocation" then 20
  else if p = strOf "proposal" || p = strOf "propose" then 10
  else 0

/-- Model of `Number(d.currentPlayers || d.players || d.participants || 0)`
for part_003 debate objects. -/
def curCoalescedP3 (d : DebateP3) : Nat :=
  if d.currentPlayers ≠ 0 then d.currentPlayers
  else if d.players ≠ 0 then d.players
  else d.participants

/-- Model of part_003's `pickDebatesOrdered` (lines 134-142): score and
stable-sort descending, with no joinability filter. -/
def pickDebatesOrderedP3 (debates : List DebateP3) : List DebateP3 :=
  (sortOrd (fun a b => decide (b.2 ≤ a.2))
    (debates.map (fun d => (d, phaseWeightP3 d.phase + min (curCoalescedP3 d) 10)))).map
    Prod.fst

/-- Model of `findSelfIdea` (part_003, lines 261-272). -/
def findSelfIdea (ideas : List IdeaP3) (username : Str) : Option IdeaP3 :=
  let u := lowerStr (trimStr username)
  if u.isEmpty then none
  else ideas.find? (fun i =>
    i.authorVals.any (fun v => !v.isEmpty && lowerStr (trimStr v) == u))

/-- Model of `extractCommentsFromIdeas` (part_003, lines 275-284). -/
def extractCommentsFromIdeas (ideas : List IdeaP3) : List (IdeaP3 × CommentP3) :=
  ideas.flatMap (fun i => i.commentsArr.map (fun c => (i, c)))

/-- Model of `commentAlreadyPosted` (part_003, lines 286-289). -/
def commentAlreadyPosted (comments : List (IdeaP3 × CommentP3)) (marker : Str) :
    Bool :=
  comments.any (fun x => jsIncludes (lowerStr x.2.msg) (lowerStr marker))

/-- Model of `detectStrongCriticism` (part_003, lines 291-301). -/
def detectStrongCriticism (commentsOnSelf : List (IdeaP3 × CommentP3)) : List Str :=
  let text := sjoin (strOf "\n") (commentsOnSelf.map (fun x => lowerStr x.2.msg))
  (if jsIncludes text (strOf "off-topic") || jsIncludes text (strOf "off topic")
   then [strOf "offtopic"] else []) ++
  (if jsIncludes text (strOf "zero mechanism") || jsIncludes text (strOf "no mechanism")
      || jsIncludes text (strOf "no design")
   then [strOf "nomech"] else []) ++
  (if jsIncludes text (strOf "slop") || jsIncludes text (strOf "noise")
   then [strOf "slop"] else [])

/-- Errors that can reach a script's top-level catch handler: a missing
required environment value (`mustGetEnv` throw), a failed Telegram send
(`tgSend` throw), network failure after `fetch` retries, and a marker for
divergence of the modelled allocation loop (proved unreachable). -/
inductive JsErr
  | envMissing (name : Str)
  | tgSendFailed
  | netFailed
  | modelDiverge
  deriving DecidableEq, Repr

/-- Model of `mustGetEnv` (throws `NAME_MISSING` on a falsy value). -/
def mustGetEnv (v : Str) (name : Str) : Except JsErr Str :=
  if v.isEmpty then .error (.envMissing name) else .ok v

/-- Model of `tgSend`: the oracle says whether the Telegram call succeeds;
on failure the function throws `TELEGRAM_SEND_FAILED`. -/
def tgSendM (ok : Bool) : Except JsErr Unit :=
  if ok then .ok () else .error .tgSendFailed

/-- Lifts an HTTP-oracle value into the script monad: `none` models a
`fetch` rejection (network failure surviving the retry wrapper). -/
def liftNet : Option α → Except JsErr α
  | none => .error .netFailed
  | some a => .ok a

/-- Join response content that drives control flow: status plus the
error-message source for `safeErrMsg` (the truthy `json.error || json.message`
when present, otherwise the raw text). -/
structure JoinResp where
  status : Nat := 0
  text : Str := []
  jsonErrMsg : Option Str := none
  deriving DecidableEq, Repr

/-- Model of `safeErrMsg` (conclave_tick.js, lines 53-57). -/
def safeErrMsg (r : JoinResp) : Str := r.jsonErrMsg.getD r.text

/-- Status-endpoint payload for the first conclave_tick.js variant. -/
structure StatusJsonV1 where
  inDebate : Bool := false
  phase : Str := []
  deriving DecidableEq, Repr

/-- Debates-endpoint payload (`debatesRes.json.debates || []`). -/
structure DebatesJsonV1 where
  debates : List Debate := []
  deriving DecidableEq, Repr

/-- Environment for the first conclave_tick.js variant; `[]` models an
unset variable. -/
structure EnvV1 where
  conclaveToken : Str := []
  tgBotToken : Str := []
  tgChatId : Str := []

/-- Status-endpoint HTTP response for the first variant. -/
structure StatusRespV1 where
  status : Nat := 200
  json : Option StatusJsonV1 := some {}
  deriving DecidableEq, Repr

/-- Debates-endpoint HTTP response for the first variant. -/
structure DebatesRespV1 where
  status : Nat := 200
  json : Option DebatesJsonV1 := some {}
  deriving DecidableEq, Repr

/-- External-world oracle for one run of the first conclave_tick.js
variant: the HTTP responses (with `none` for a network failure) and the
outcome of a Telegram send.  At most one Telegram send happens inside the
main body along any path, so a single Boolean suffices. -/
structure WorldV1 where
  statusResp : Option StatusRespV1 := some {}
  debatesResp : Option DebatesRespV1 := some {}
  joinResp : Nat → Option JoinResp := fun _ => some {}
  tgOk : Bool := true

/-- Model of the join loop of the first conclave_tick.js variant
(lines 138-160), walking the enumerated candidate window. -/
def joinLoopV1 (w : WorldV1) : List (Nat × Debate) → Except JsErr Nat
  | [] => .ok 0
  | (idx, d) :: rest =>
    if d.id = 0 then joinLoopV1 w rest
    else
      match w.joinResp idx with
      | none => .error .netFailed
      | some j =>
        if j.status = 200 then do
          tgSendM w.tgOk
          pure 0
        else
          let err := lowerStr (safeErrMsg j)
          if jsIncludes err (strOf "full")
              || jsIncludes err (strOf "not accepting players") then
            joinLoopV1 w rest
          else do
            tgSendM w.tgOk
            pure 0

/-- Model of the async main body of the first conclave_tick.js variant
(lines 94-175).  A returned value is the argument of the `process.exit`
call that ended the run; a thrown error propagates to the top-level
`.catch`. -/
def mainV1 (env : EnvV1) (w : WorldV1) : Except JsErr Nat := do
  let _ ← mustGetEnv env.conclaveToken (strOf "CONCLAVE_TOKEN")
  let _ ← mustGetEnv env.tgBotToken (strOf "TELEGRAM_BOT_TOKEN")
  let _ ← mustGetEnv env.tgChatId (strOf "TELEGRAM_CHAT_ID")
  let statusRes ← liftNet w.statusResp
  match statusRes.json with
  | none => do
    tgSendM w.tgOk
    pure 0
  | some sj =>
    if statusRes.status ≠ 200 then do
      tgSendM w.tgOk
      pure 0
    else
      let inDebate := sj.inDebate
      let phase := lowerStr sj.phase
      if !inDebate then do
        let debatesRes ← liftNet w.debatesResp
        match debatesRes.json with
        | none => do
          tgSendM w.tgOk
          pure 0
        | some dj =>
          if debatesRes.status ≠ 200 then do
            tgSendM w.tgOk
            pure 0
          else
            let debates := dj.debates
            if debates.isEmpty then pure 0
            else
              let ordered := selectOrderV1 debates
              joinLoopV1 w ((ordered.take (min 10 ordered.length)).enum)
      else if phase = strOf "allocation" then do
        tgSendM w.tgOk
        pure 0
      else pure 0

/-- Model of the whole first conclave_tick.js variant process: the
top-level `.catch` (lines 176-192) sends a best-effort notification inside
its own try/catch and then calls `process.exit(1)`, so an error always
yields exit code 1. -/
def runTickV1 (env : EnvV1) (w : WorldV1) : Nat :=
  match mainV1 env w with
  | .ok c => c
  | .error _ => 1

/-- Status-endpoint payload for part_003: `inGame`/`inDebate` are combined
with `??`, so absence is distinguished from `false`; `ideas` models
`st.ideas || []`; the two brief fields model `st.brief?.theme` and
`st.brief?.description`. -/
structure StatusJsonP3 where
  inGame : Option Bool := none
  inDebate : Option Bool := none
  phase : Str := []
  ideas : List IdeaP3 := []
  briefTheme : Str := []
  briefDesc : Str := []
  deriving DecidableEq, Repr

/-- Status-endpoint HTTP response for part_003. -/
structure StatusRespP3 where
  status : Nat := 200
  json : Option StatusJsonP3 := some {}
  deriving DecidableEq, Repr

/-- A mutating-endpoint HTTP response (refine / comment / allocate) whose
body only feeds notification text. -/
structure PlainResp where
  status : Nat := 200
  text : Str := []
  deriving DecidableEq, Repr

/-- Debates-endpoint payload for part_003. -/
structure DebatesJsonP3 where
  debates : List DebateP3 := []
  deriving DecidableEq, Repr

/-- Debates-endpoint HTTP response for part_003. -/
structure DebatesRespP3 where
  status : Nat := 200
  json : Option DebatesJsonP3 := some {}
  deriving DecidableEq, Repr

/-- Model of `isOn` (part_003, lines 27-30). -/
def isOnStr (v : Str) : Bool :=
  let t := lowerStr (trimStr v)
  t = strOf "1" || t = strOf "true" || t = strOf "yes" || t = strOf "on"

/-- Environment for part_003; `[]` models an unset variable except for
`username`, where `env()` distinguishes unset (`none`, giving the default
DiamondHandsDig) from an empty string.  `dailyHour` models
`numEnv("CONCLAVE_DAILY_BALANCE_UTC_HOUR", 12)` and `selfAllocPctFloor`
models `Math.floor(numEnv("CONCLAVE_SELF_ALLOC_PCT", 5))`. -/
structure EnvP3 where
  conclaveToken : Str := []
  tgBotToken : Str := []
  tgChatId : Str := []
  notifyDailyRaw : Str := []
  dailyHour : Int := 12
  username : Option Str := none
  selfAllocPctFloor : Int := 5
  selfTickerRaw : Str := []

/-- External-world oracle for one part_003 run: wall-clock fields, the HTTP
responses of each call site (`none` for a network failure surviving the
retry wrapper), and the outcomes of the at most two Telegram sends a path
can perform (the daily-summary send and one later send).  Message payloads
are external-notification content and are not modelled. -/
structure WorldP3 where
  utcHour : Nat := 0
  utcMinute : Nat := 1
  nowIso : Str := []
  balanceResp : Option Unit := some ()
  statusSummaryResp : Option Unit := some ()
  tgOkDaily : Bool := true
  statusResp : Option StatusRespP3 := some {}
  refineResp : Option PlainResp := some {}
  commentResp : Option PlainResp := some {}
  debatesResp : Option DebatesRespP3 := some {}
  joinResp : Nat → Option JoinResp := fun _ => some {}
  allocResp : Option PlainResp := some {}
  tgOk : Bool := true

/-- Model of `shouldSendDailyBalanceUtc` (part_003, lines 121-125). -/
def shouldSendDailyBalance (env : EnvP3) (w : WorldP3) : Bool :=
  isOnStr env.notifyDailyRaw && (w.utcHour : Int) == env.dailyHour
    && w.utcMinute == 0

/-- Model of part_003's join loop (lines 553-584): candidates without an
id, with an ended/results phase, or whose join body is skipped do not count
against `maxAttempts`; a soft rejection (full / not accepting / closed /
ended message) moves on, anything else notifies and exits. -/
def joinLoopP3 (w : WorldP3) (maxA : Nat) : List DebateP3 → Nat → Except JsErr Nat
  | [], _ => .ok 0
  | d :: rest, tried =>
    if maxA ≤ tried then .ok 0
    else if d.id.isEmpty then joinLoopP3 w maxA rest tried
    else
      let p := lowerStr d.phase
      if p = strOf "ended" || p = strOf "results" then joinLoopP3 w maxA rest tried
      else
        let built := buildJoinBodyForDebate d
        if built.skip then joinLoopP3 w maxA rest tried
        else
          match w.joinResp tried with
          | none => .error .netFailed
          | some j =>
            if j.status = 200 then do
              tgSendM w.tgOk
              pure 0
            else
              let errMsg := lowerStr (safeErrMsg j)
              if jsIncludes errMsg (strOf "full")
                  || jsIncludes errMsg (strOf "not accepting")
                  || jsIncludes errMsg (strOf "closed")
                  || jsIncludes errMsg (strOf "ended") then
                joinLoopP3 w maxA rest (tried + 1)
              else do
                tgSendM w.tgOk
                pure 0

/-- Model of part_003's in-game comment/refine block (lines 464-531). -/
def commentRefinePhase (w : WorldP3) (sj : StatusJsonP3)
    (ideas : List IdeaP3) (username : Str) : Except JsErr Nat :=
  match findSelfIdea ideas username with
  | none => .ok 0
  | some selfIdea =>
    if selfIdea.ticker.isEmpty && selfIdea.ideaId.isEmpty && selfIdea.id.isEmpty then
      .ok 0
    else
      let selfTicker := upperStr selfIdea.ticker
      let selfIdeaId := if selfIdea.ideaId.isEmpty then selfIdea.id else selfIdea.ideaId
      let allComments := extractCommentsFromIdeas ideas
      let commentsOnSelf := allComments.filter
        (fun x => upperStr x.1.ticker == selfTicker)
      let marker := strOf "[neo:" ++ w.nowIso.take 16 ++ strOf "Z]"
      let already := commentAlreadyPosted commentsOnSelf marker
      let flags := detectStrongCriticism commentsOnSelf
      let briefText :=
        if !sj.briefTheme.isEmpty then sj.briefTheme
        else if !sj.briefDesc.isEmpty then sj.briefDesc
        else selfIdea.description
      let category := classifyDebate briefText
      let refineMarker := strOf "[neo-refine:" ++ w.nowIso.take 13 ++ strOf "Z]"
      let refinedThisHour :=
        jsIncludes (lowerStr selfIdea.description) (lowerStr refineMarker)
      let commentStep : Except JsErr Nat :=
        if !already && !selfTicker.isEmpty then
          match w.commentResp with
          | none => .error .netFailed
          | some c =>
            if c.status ≠ 200 then do
              tgSendM w.tgOk
              pure 0
            else .ok 0
        else .ok 0
      if !refinedThisHour && !flags.isEmpty && !selfIdeaId.isEmpty then
        match buildRefinement briefText category with
        | some _ =>
          match w.refineResp with
          | none => .error .netFailed
          | some r =>
            if r.status ≠ 200 then do
              tgSendM w.tgOk
              pure 0
            else commentStep
        | none => commentStep
      else commentStep

/-- Model of the async main body of part_003 (lines 410-616).  A returned
value is the argument of the `process.exit(0)` call that ended the run; a
thrown error propagates to the top-level `.catch`.  `tickEnd` only writes a
log line and is not modelled. -/
def mainP3 (env : EnvP3) (w : WorldP3) : Except JsErr Nat := do
  let _ ← mustGetEnv env.conclaveToken (strOf "CONCLAVE_TOKEN")
  let _ ← mustGetEnv env.tgBotToken (strOf "TELEGRAM_BOT_TOKEN")
  let _ ← mustGetEnv env.tgChatId (strOf "TELEGRAM_CHAT_ID")
  let _ ← liftNet w.balanceResp
  if shouldSendDailyBalance env w then do
    let _ ← liftNet w.statusSummaryResp
    tgSendM w.tgOkDaily
  let statusRes ← liftNet w.statusResp
  match statusRes.json with
  | none => do
    tgSendM w.tgOk
    pure 0
  | some sj =>
    if statusRes.status ≠ 200 then do
      tgSendM w.tgOk
      pure 0
    else
      let inGame :=
        match sj.inGame with
        | some b => b
        | none => sj.inDebate.getD false
      let phase := lowerStr sj.phase
      let ideas := sj.ideas
      let username := trimStr (env.username.getD (strOf "DiamondHandsDig"))
      if inGame && (phase = strOf "debate" || phase = strOf "proposal"
          || phase = strOf "propose") then
        commentRefinePhase w sj ideas username
      else if !inGame then do
        let debatesRes ← liftNet w.debatesResp
        match debatesRes.json with
        | none => do
          tgSendM w.tgOk
          pure 0
        | some dj =>
          if debatesRes.status ≠ 200 then do
            tgSendM w.tgOk
            pure 0
          else
            let debates := dj.debates
            if debates.isEmpty then pure 0
            else
              let ordered := pickDebatesOrderedP3 debates
              joinLoopP3 w (min 6 ordered.length) ordered 0
      else if phase = strOf "allocation" then
        match buildAutoAllocations ideas env.selfAllocPctFloor env.selfTickerRaw with
        | .diverge => .error .modelDiverge
        | .null => do
          tgSendM w.tgOk
          pure 0
        | .ok _ => do
          let r ← liftNet w.allocResp
          if r.status = 200 then do
            tgSendM w.tgOk
            pure 0
          else do
            tgSendM w.tgOk
            pure 0
      else pure 0

/-- Model of the whole part_003 process: its top-level `.catch`
(lines 617-633) logs `tick_failed`, makes a best-effort Telegram attempt
inside try/catch, calls `tickEnd("failed")` and then plainly returns, so
the process finishes its event loop and exits with code 0 even after an
unhandled exception. -/
def runTickP3 (env : EnvP3) (w : WorldP3) : Nat :=
  match mainP3 env w with
  | .ok c => c
  | .error _ => 0

/-- A fully-populated environment for exercising the happy path of the
first variant. -/
def envOkV1 : EnvV1 :=
  { conclaveToken := strOf "t", tgBotToken := strOf "b", tgChatId := strOf "c" }

example : mainP3 {} {} = .error (.envMissing (strOf "CONCLAVE_TOKEN")) := rfl
example : runTickP3 {} {} = 0 := rfl
example : mainV1 envOkV1 {} = .ok 0 := rfl

/-! Helper lemmas. -/

theorem snip_eq_of_le {s : Str} {n : Nat} (h : s.length ≤ n) : snip s n = s := by
  simp [snip]
  omega

theorem snip_length_le (s : Str) (n : Nat) : (snip s n).length ≤ n + 3 := by
  simp only [snip]
  split
  · simp [List.length_take, strOf]
  · simp_all
    omega

theorem hashLetters_length (n h : Nat) : (hashLetters n h).length = n := by
  induction n generalizing h with
  | zero => rfl
  | succ k ih => simp [hashLetters, ih]

theorem lettersStr_getD_upper (i : Nat) :
    isUpperAlpha (lettersStr.getD i 'A') = true := by
  rcases Nat.lt_or_ge i 26 with h | h
  · interval_cases i <;> decide
  · rw [List.getD_eq_default]
    · decide
    · have : lettersStr.length = 26 := by decide
      omega

theorem hashLetters_upper (n h : Nat) :
    ∀ c ∈ hashLetters n h, isUpperAlpha c = true := by
  induction n generalizing h with
  | zero => intro c hc; simp [hashLetters] at hc
  | succ k ih =>
    intro c hc
    simp only [hashLetters, List.mem_cons] at hc
    rcases hc with rfl | hc
    · exact lettersStr_getD_upper _
    · exact ih _ c hc

theorem pickLoop_some :
    ∀ (l : List Str) (s : Str), pickLoop l = some s →
      3 ≤ s.length ∧ s.length ≤ 6 ∧ ∀ c ∈ s, isUpperAlpha c = true := by
  intro l
  induction l with
  | nil => intro s h; simp [pickLoop] at h
  | cons p rest ih =>
    intro s h
    simp only [pickLoop] at h
    split at h
    · rename_i hcond
      obtain rfl : p.filter isUpperAlpha = s := by injection h
      simp only [Bool.and_eq_true, decide_eq_true_eq] at hcond
      exact ⟨hcond.1, hcond.2, fun c hc => (List.mem_filter.1 hc).2⟩
    · split at h
      · rename_i hgt
        obtain rfl : (p.filter isUpperAlpha).take 6 = s := by injection h
        refine ⟨?_, ?_, ?_⟩
        · rw [List.length_take]; omega
        · rw [List.length_take]; omega
        · intro c hc
          exact (List.mem_filter.1 (List.mem_of_mem_take hc)).2
      · exact ih s h

/-- C6: `makeTickerFromTheme` is total and, for every theme string and
fallback seed (including empty or symbol-only input), returns a string of
3 to 6 uppercase alphabetic characters, trying keyword picks first, then
word initials, then the deterministic hash fallback. -/
theorem makeTickerFromTheme_shape (theme fallbackSeed : Str) :
    3 ≤ (makeTickerFromTheme theme fallbackSeed).length ∧
    (makeTickerFromTheme theme fallbackSeed).length ≤ 6 ∧
    ∀ c ∈ makeTickerFromTheme theme fallbackSeed, isUpperAlpha c = true := by
  simp only [makeTickerFromTheme]
  cases hp : pickLoop (tickerPicks (sjoin (strOf " ") (makeTickerWords theme))) with
  | some s => exact pickLoop_some _ s hp
  | none =>
    by_cases hinit : 3 ≤ (List.filter isUpperAlpha
        (((makeTickerWords theme).take 3).flatMap (fun w => w.take 1))).length
    · rw [if_pos hinit]
      refine ⟨?_, ?_, ?_⟩
      · rw [List.length_take]; omega
      · rw [List.length_take]; omega
      · intro c hc
        exact (List.mem_filter.1 (List.mem_of_mem_take hc)).2
    · rw [if_neg hinit]
      refine ⟨?_, ?_, ?_⟩
      · rw [List.length_take, hashLetters_length]; omega
      · rw [List.length_take, hashLetters_length]; omega
      · intro c hc
        exact hashLetters_upper _ _ c (List.mem_of_mem_take hc)

/-- Sum of the percentages of an allocation entry list. -/
def psum (l : List AEntry) : Nat := (l.map (·.percentage)).sum

theorem bumpAt_length (l : List AEntry) (i : Nat) : (bumpAt l i).length = l.length := by
  induction l generalizing i with
  | nil => rfl
  | cons e rest ih =>
    cases i with
    | zero => rfl
    | succ k => simp [bumpAt, ih]

theorem bumpAt_psum (l : List AEntry) (i : Nat) (h : i < l.length) :
    psum (bumpAt l i) = psum l + 1 := by
  induction l generalizing i with
  | nil => simp at h
  | cons e rest ih =>
    cases i with
    | zero => simp [bumpAt, psum]; omega
    | succ k =>
      simp only [bumpAt, psum, List.map_cons, List.sum_cons]
      have := ih k (by simpa using h)
      simp only [psum] at this
      omega

theorem bumpAt_le (l : List AEntry) (i : Nat)
    (h60 : ∀ x ∈ l, x.percentage ≤ 60)
    (hc : (l.getD i default).percentage < 60) :
    ∀ x ∈ bumpAt l i, x.percentage ≤ 60 := by
  induction l generalizing i with
  | nil => intro x hx; simp [bumpAt] at hx
  | cons e rest ih =>
    cases i with
    | zero =>
      intro x hx
      simp only [bumpAt, List.mem_cons] at hx
      rcases hx with rfl | hx
      · simp only [List.getD, List.getElem?_cons_zero] at hc
        simp at hc ⊢
        omega
      · exact h60 x (List.mem_cons_of_mem _ hx)
    | succ k =>
      intro x hx
      simp only [bumpAt, List.mem_cons] at hx
      rcases hx with rfl | hx
      · exact h60 x (List.mem_cons_self _ _)
      · refine ih k (fun y hy => h60 y (List.mem_cons_of_mem _ hy)) ?_ x hx
        simpa [List.getD] using hc

theorem sixty_le_psum (l : List AEntry) (h : ∀ x ∈ l, 60 ≤ x.percentage) :
    60 * l.length ≤ psum l := by
  induction l with
  | nil => simp [psum]
  | cons e rest ih =>
    have he := h e (List.mem_cons_self _ _)
    have := ih (fun x hx => h x (List.mem_cons_of_mem _ hx))
    simp only [psum, List.map_cons, List.sum_cons, List.length_cons] at *
    omega

theorem exists_getD_lt (l : List AEntry) (hx : ∃ x ∈ l, x.percentage < 60) :
    ∃ j, j < l.length ∧ (l.getD j default).percentage < 60 := by
  obtain ⟨x, hmem, hlt⟩ := hx
  obtain ⟨i, hi, rfl⟩ := List.mem_iff_getElem.1 hmem
  exact ⟨i, hi, by rwa [List.getD_eq_getElem l default hi]⟩

theorem cyclic_reach (n idx j : Nat) (hi : idx < n) (hj : j < n) :
    ∃ t, t < n ∧ (idx + t) % n = j := by
  refine ⟨(j + n - idx) % n, Nat.mod_lt _ (by omega), ?_⟩
  have h1 : (idx + (j + n - idx) % n) % n = (idx + (j + n - idx)) % n :=
    Nat.add_mod_mod _ _ _
  have h2 : idx + (j + n - idx) = j + n := by omega
  rw [h1, h2, Nat.add_mod_right, Nat.mod_eq_of_lt hj]

theorem distLoop_ok :
    ∀ (fuel : Nat) (allocs : List AEntry) (rem2 idx dW : Nat),
      idx < allocs.length → 2 ≤ allocs.length →
      (∀ x ∈ allocs, x.percentage ≤ 60) →
      psum allocs + rem2 ≤ 100 →
      (rem2 = 0 ∨ ∃ t, t < dW ∧
        (allocs.getD ((idx + t) % allocs.length) default).percentage < 60) →
      rem2 * allocs.length + dW ≤ fuel →
      (distLoop fuel allocs rem2 idx).isSome := by
  intro fuel
  induction fuel with
  | zero =>
    intro allocs rem2 idx dW hidx hlen h60 hsum hdisj hfuel
    rcases hdisj with rfl | ⟨t, ht, _⟩
    · simp [distLoop]
    · exfalso
      have hrem : 1 ≤ rem2 := by
        by_contra hc
        push_neg at hc
        interval_cases rem2
        · omega
      have : 1 * 2 ≤ rem2 * allocs.length := Nat.mul_le_mul hrem hlen
      omega
  | succ fuel ih =>
    intro allocs rem2 idx dW hidx hlen h60 hsum hdisj hfuel
    by_cases hrem : rem2 = 0
    · simp [distLoop, hrem]
    rcases hdisj with rfl | ⟨t, ht, hlt⟩
    · simp at hrem
    have hne : ¬(rem2 = 0 ∨ allocs.isEmpty = true) := by
      simp [List.isEmpty_iff]
      exact ⟨hrem, by intro hnil; rw [hnil] at hlen; simp at hlen⟩
    have hpos : 0 < allocs.length := by omega
    simp only [distLoop]
    rw [if_neg hne]
    by_cases hcur : (allocs.getD idx default).percentage < 60
    · rw [if_pos hcur]
      have hmul : (rem2 - 1) * allocs.length + allocs.length = rem2 * allocs.length := by
        cases rem2 with
        | zero => omega
        | succ r => simp [Nat.succ_mul]
      refine ih (bumpAt allocs idx) (rem2 - 1) ((idx + 1) % allocs.length)
        allocs.length ?_ ?_ ?_ ?_ ?_ ?_
      · rw [bumpAt_length]; exact Nat.mod_lt _ hpos
      · rw [bumpAt_length]; exact hlen
      · exact bumpAt_le allocs idx h60 hcur
      · rw [bumpAt_psum allocs idx hidx]; omega
      · by_cases hrem1 : rem2 - 1 = 0
        · exact Or.inl hrem1
        · refine Or.inr ?_
          have hlow : psum (bumpAt allocs idx) ≤ 99 := by
            rw [bumpAt_psum allocs idx hidx]; omega
          have hex : ∃ x ∈ bumpAt allocs idx, x.percentage < 60 := by
            by_contra hc
            push_neg at hc
            have hall : ∀ x ∈ bumpAt allocs idx, 60 ≤ x.percentage := hc
            have := sixty_le_psum _ hall
            rw [bumpAt_length] at this
            have h120 : 120 ≤ 60 * allocs.length := by omega
            omega
          obtain ⟨j, hj, hjlt⟩ := exists_getD_lt _ hex
          rw [bumpAt_length] at hj
          obtain ⟨t2, ht2, heq⟩ := cyclic_reach allocs.length
            ((idx + 1) % allocs.length) j (Nat.mod_lt _ hpos) hj
          refine ⟨t2, ht2, ?_⟩
          rw [bumpAt_length, heq]
          exact hjlt
      · rw [bumpAt_length]
        have hd1 : 1 ≤ dW := by omega
        omega
    · rw [if_neg hcur]
      have ht0 : t ≠ 0 := by
        intro h0
        rw [h0, Nat.add_zero, Nat.mod_eq_of_lt hidx] at hlt
        exact hcur hlt
      refine ih allocs rem2 ((idx + 1) % allocs.length) (dW - 1)
        (Nat.mod_lt _ hpos) hlen h60 hsum ?_ (by omega)
      refine Or.inr ⟨t - 1, by omega, ?_⟩
      have heq : ((idx + 1) % allocs.length + (t - 1)) % allocs.length =
          (idx + t) % allocs.length := by
        rw [Nat.mod_add_mod]
        congr 1
        omega
      rwa [heq]

theorem psum_append (a b : List AEntry) : psum (a ++ b) = psum a + psum b := by
  simp [psum]

theorem psum_const (l : List AEntry) (b : Nat) (h : ∀ x ∈ l, x.percentage = b) :
    psum l = b * l.length := by
  induction l with
  | nil => simp [psum]
  | cons e rest ih =>
    have he := h e (List.mem_cons_self _ _)
    have := ih (fun x hx => h x (List.mem_cons_of_mem _ hx))
    simp only [psum, List.map_cons, List.sum_cons, List.length_cons] at *
    rw [he, this, Nat.mul_succ]
    omega

theorem iteAuto_ne_diverge (P Q : Prop) [Decidable P] [Decidable Q] (l : List AEntry) :
    (if P then AutoResult.null else if Q then AutoResult.null else AutoResult.ok l) ≠
      .diverge := by
  split
  · simp
  · split <;> simp

theorem afterLoop_ne_diverge (fuel : Nat) (allocs1 : List AEntry) (rem2 : Nat)
    (cont : List AEntry → AutoResult)
    (hcont : ∀ l, cont l ≠ .diverge)
    (h2 : 2 ≤ allocs1.length)
    (h60 : ∀ x ∈ allocs1, x.percentage ≤ 60)
    (hsum : psum allocs1 + rem2 ≤ 100)
    (hfuel : rem2 * allocs1.length + allocs1.length ≤ fuel) :
    (match distLoop fuel allocs1 rem2 0 with
     | none => AutoResult.diverge
     | some l => cont l) ≠ .diverge := by
  have hdisj : rem2 = 0 ∨ ∃ t, t < allocs1.length ∧
      (allocs1.getD ((0 + t) % allocs1.length) default).percentage < 60 := by
    by_cases hr : rem2 = 0
    · exact Or.inl hr
    · refine Or.inr ?_
      have hex : ∃ x ∈ allocs1, x.percentage < 60 := by
        by_contra hc
        push_neg at hc
        have := sixty_le_psum _ hc
        have h120 : 120 ≤ 60 * allocs1.length := by omega
        omega
      obtain ⟨j, hj, hjlt⟩ := exists_getD_lt _ hex
      obtain ⟨t, htn, heq⟩ := cyclic_reach allocs1.length 0 j (by omega) hj
      exact ⟨t, htn, by rwa [heq]⟩
  have hs := distLoop_ok fuel allocs1 rem2 0
    allocs1.length (by omega) h2 h60 hsum hdisj hfuel
  obtain ⟨l, hl⟩ := Option.isSome_iff_exists.1 hs
  rw [hl]
  exact hcont l


theorem autoTail_noSelf (L : List IdeaP3) (hL : ¬L.length < 2)
    (cont : List AEntry → AutoResult) (hcont : ∀ l, cont l ≠ .diverge) :
    (match
      distLoop
        ((100 - 100 / (4 ⊓ (2 ⊔ L.length)) * (List.take (4 ⊓ (2 ⊔ L.length)) L).length) *
            (List.map (fun it => (⟨idOfP3 it, 100 / (4 ⊓ (2 ⊔ L.length))⟩ : AEntry))
              (List.take (4 ⊓ (2 ⊔ L.length)) L)).length +
          (List.map (fun it => (⟨idOfP3 it, 100 / (4 ⊓ (2 ⊔ L.length))⟩ : AEntry))
            (List.take (4 ⊓ (2 ⊔ L.length)) L)).length)
        (List.map (fun it => (⟨idOfP3 it, 100 / (4 ⊓ (2 ⊔ L.length))⟩ : AEntry))
          (List.take (4 ⊓ (2 ⊔ L.length)) L))
        (100 - 100 / (4 ⊓ (2 ⊔ L.length)) * (List.take (4 ⊓ (2 ⊔ L.length)) L).length)
        0 with
     | none => AutoResult.diverge
     | some l => cont l) ≠ .diverge := by
  apply afterLoop_ne_diverge
  · exact hcont
  · simp only [List.length_map, List.length_take]
    omega
  · intro x hx
    obtain ⟨it, hit, rfl⟩ := List.mem_map.1 hx
    have hd : 100 / (4 ⊓ (2 ⊔ L.length)) ≤ 100 / 2 :=
      Nat.div_le_div_left (by omega) (by omega)
    show 100 / (4 ⊓ (2 ⊔ L.length)) ≤ 60
    omega
  · rw [psum_const _ (100 / (4 ⊓ (2 ⊔ L.length)))
      (by intro x hx; obtain ⟨it, hit, rfl⟩ := List.mem_map.1 hx; rfl)]
    simp only [List.length_map]
    have hmul : 100 / (4 ⊓ (2 ⊔ L.length)) *
        (List.take (4 ⊓ (2 ⊔ L.length)) L).length ≤ 100 := by
      calc 100 / (4 ⊓ (2 ⊔ L.length)) * (List.take (4 ⊓ (2 ⊔ L.length)) L).length
          ≤ 100 / (4 ⊓ (2 ⊔ L.length)) * (4 ⊓ (2 ⊔ L.length)) := by
            apply Nat.mul_le_mul_left
            simp [List.length_take]
        _ ≤ 100 := Nat.div_mul_le_self _ _
    omega
  · exact le_refl _


theorem psum_cons (e : AEntry) (l : List AEntry) :
    psum (e :: l) = e.percentage + psum l := by
  simp [psum]

/-- C9: the remainder-distribution while-loop of `buildAutoAllocations`
terminates on every input on which it is reached (the distributed amounts
always fit under the 60-per-entry cap across at least two entries, so every
round of the loop makes progress), hence `buildAutoAllocations` is a total
function: the divergence marker of the fuelled model is never returned. -/
theorem buildAutoAllocations_total (ideas : List IdeaP3) (selfPct : Int) (selfTickerEnv : Str) :
    buildAutoAllocations ideas selfPct selfTickerEnv ≠ .diverge := by
  simp only [buildAutoAllocations]
  split
  · simp
  · rename_i h2len
    split
    · rename_i hempty
      simp only [Option.none_bind, List.length_nil, List.nil_append, List.map_nil,
        List.sum_nil, Nat.sub_zero, and_true]
      rw [if_neg h2len]
      exact autoTail_noSelf _ h2len _ (fun l => iteAuto_ne_diverge _ _ l)
    · rename_i hne
      cases hsi : List.findIdx?
          (fun x => upperStr x.ticker == upperStr (trimStr selfTickerEnv))
          (List.filter usableP3 ideas) with
      | none =>
        simp only [Option.none_bind, List.length_nil, List.nil_append, List.map_nil,
          List.sum_nil, Nat.sub_zero, and_true]
        rw [if_neg h2len]
        exact autoTail_noSelf _ h2len _ (fun l => iteAuto_ne_diverge _ _ l)
      | some i =>
        have hi : i < (List.filter usableP3 ideas).length :=
          (List.findIdx?_eq_some_iff_findIdx_eq.1 hsi).1
        cases hget : (List.filter usableP3 ideas).get? i with
        | none =>
          simp only [Option.some_bind, hget, List.length_nil, List.nil_append,
            List.map_nil, List.sum_nil, Nat.sub_zero, and_true]
          by_cases hg : ((List.filter usableP3 ideas).eraseIdx i).length < 2
          · rw [if_pos hg]
            simp
          · rw [if_neg hg]
            exact autoTail_noSelf _ hg _ (fun l => iteAuto_ne_diverge _ _ l)
        | some s =>
          simp only [Option.some_bind, hget]
          by_cases hp : 0 < (0 ⊔ 60 ⊓ selfPct).toNat
          · simp only [if_pos hp, List.map_cons, List.map_nil, List.sum_cons,
              List.sum_nil, Nat.add_zero, List.length_cons, List.length_nil,
              List.cons_append, List.nil_append]
            rw [if_neg (by omega :
              ¬(((List.filter usableP3 ideas).eraseIdx i).length < 2 ∧ 0 + 1 = 0))]
            set E := (List.filter usableP3 ideas).eraseIdx i with hEdef
            set P := (0 ⊔ 60 ⊓ selfPct).toNat with hPdef
            set K := 4 ⊓ (2 ⊔ E.length) with hKdef
            have hE : 1 ≤ E.length := by
              rw [hEdef, List.length_eraseIdx]
              simp only [hi, if_true]
              omega
            apply afterLoop_ne_diverge
            · intro l
              exact iteAuto_ne_diverge _ _ l
            · simp only [List.length_cons, List.length_map, List.length_take]
              omega
            · intro x hx
              rcases List.mem_cons.1 hx with rfl | hx2
              · show P ≤ 60
                omega
              · obtain ⟨it, hit, rfl⟩ := List.mem_map.1 hx2
                have hr1 : (100 - P) / K ≤ 100 / K := Nat.div_le_div_right (by omega)
                have hr2 : 100 / K ≤ 100 / 2 := Nat.div_le_div_left (by omega) (by omega)
                show (100 - P) / K ≤ 60
                omega
            · rw [psum_cons, psum_const _ ((100 - P) / K)
                (by intro x hx; obtain ⟨it, hit, rfl⟩ := List.mem_map.1 hx; rfl),
                List.length_map]
              have hX : (100 - P) / K * (List.take K E).length ≤ 100 - P := by
                calc (100 - P) / K * (List.take K E).length
                    ≤ (100 - P) / K * K := by
                      apply Nat.mul_le_mul_left
                      simp [List.length_take]
                  _ ≤ 100 - P := Nat.div_mul_le_self _ _
              have hproj : ({ ideaId := idOfP3 s, percentage := P } : AEntry).percentage = P := rfl
              omega
            · simp only [List.length_cons, List.length_map]
              omega
          · simp only [if_neg hp, List.length_nil, List.nil_append, List.map_nil,
              List.sum_nil, Nat.sub_zero, and_true]
            by_cases hg : ((List.filter usableP3 ideas).eraseIdx i).length < 2
            · rw [if_pos hg]
              simp
            · rw [if_neg hg]
              exact autoTail_noSelf _ hg _ (fun l => iteAuto_ne_diverge _ _ l)

theorem countP_map_fst_sortOrd {α : Type} (p : α → Bool)
    (le : α × Nat → α × Nat → Bool) (f : α → Nat) (l : List α) :
    ((sortOrd le (l.map (fun x => (x, f x)))).map Prod.fst).countP p = l.countP p := by
  rw [List.countP_map, (sortOrd_perm le _).countP_eq, List.countP_map]
  rfl

theorem mem_map_fst_sortOrd {α : Type} (le : α × Nat → α × Nat → Bool)
    (f : α → Nat) (l : List α) (x : α) :
    x ∈ (sortOrd le (l.map (fun a => (a, f a)))).map Prod.fst ↔ x ∈ l := by
  constructor
  · intro hx
    obtain ⟨pr, hpr, rfl⟩ := List.mem_map.1 hx
    obtain ⟨a, ha, rfl⟩ := List.mem_map.1 (mem_sortOrd.1 hpr)
    exact ha
  · intro hx
    exact List.mem_map.2 ⟨(x, f x), mem_sortOrd.2 (List.mem_map.2 ⟨x, hx, rfl⟩), rfl⟩


theorem noMineBranch_nil (second : IdeaA) : noMineBranch second [] = .null := rfl

theorem noMineBranch_of_not_truthy (second next : IdeaA) (rest : List IdeaA)
    (h : truthyId next.ideaId = false) :
    noMineBranch second (next :: rest) = .null := by
  simp [noMineBranch, h]

theorem mineBranch_nil_tail (pc : Nat) (second : IdeaA) :
    mineBranch [] pc 100 second [] = .null := by
  simp [mineBranch]

theorem mineBranch_two_way (pc : Nat) (second third : IdeaA) (rest : List IdeaA)
    (h : ¬(3 ≤ pc ∧ truthyId third.ideaId = true)) :
    mineBranch [] pc 100 second (third :: rest) = .null := by
  simp only [mineBranch, if_neg h]
  simp

theorem buildAllocations_null_of_few_truthy (ideas : List IdeaA) (myTicker : Str) (selfAllocPct : Int)
    (h : ideas.countP (fun x => truthyId x.ideaId) < 2) :
    buildAllocations ideas myTicker selfAllocPct = .null := by
  unfold buildAllocations
  lift_lets
  extract_lets list mine others0 others maxSelf pickCount a0 remaining
  have hlist : list = ideas := rfl
  have hM : mine = List.find? (fun x => upperStr x.ticker == upperStr myTicker) list := rfl
  have hO0 : others0 = list.filter (fun x =>
      match mine with
      | none => true
      | some m => !(x.ideaId == m.ideaId)) := rfl
  have hOthers : others = (sortOrd (fun a b => decide (scoreA b.1 ≤ scoreA a.1))
      (others0.map (fun x => (x, scoreA x)))).map Prod.fst := rfl
  have hA0 : a0 = (match mine with
    | some m => if truthyId m.ideaId = true
        then [{ ideaId := m.ideaId.getD [], percentage := maxSelf }] else []
    | none => []) := rfl
  have hRem : remaining = 100 - (match a0.head? with
    | some e => e.percentage
    | none => 0) := rfl
  have hcount : others.countP (fun x => truthyId x.ideaId) =
      others0.countP (fun x => truthyId x.ideaId) := by
    rw [hOthers]
    exact countP_map_fst_sortOrd _ _ _ _
  have hle : others0.countP (fun x => truthyId x.ideaId) ≤
      ideas.countP (fun x => truthyId x.ideaId) := by
    rw [hO0, hlist]
    exact (List.filter_sublist _).countP_le _
  split
  · rfl
  · rename_i hlen
    rw [hOthers]
    rw [hOthers] at hcount
    split
    · rfl
    · rename_i second othersTail hOcase
      rw [hOcase, List.countP_cons] at hcount
      split
      · rfl
      · rename_i hsec0
        have hsec : truthyId second.ideaId = true := by
          simpa using hsec0
        rw [hM]
        rw [hM] at hA0 hO0
        split
        · rename_i hMnone
          cases othersTail with
          | nil => exact noMineBranch_nil second
          | cons next rest =>
            by_cases hnext : truthyId next.ideaId = true
            · exfalso
              rw [List.countP_cons] at hcount
              simp only [hsec, hnext, if_true] at hcount
              omega
            · exact noMineBranch_of_not_truthy second next rest (by simpa using hnext)
        · rename_i m hMsome
          rw [hMsome] at hA0 hO0
          by_cases hm : truthyId m.ideaId = true
          · exfalso
            have hmem : m ∈ ideas := by
              have := List.mem_of_find?_eq_some hMsome
              rwa [hlist] at this
            have hsplit := List.countP_eq_countP_filter_add ideas
              (fun x => truthyId x.ideaId) (fun x => !(x.ideaId == m.ideaId))
            have hO0m : others0 = List.filter (fun x => !(x.ideaId == m.ideaId)) ideas := by
              rw [hO0, hlist]
            have hm1 : 0 < List.countP (fun x => truthyId x.ideaId)
                (List.filter (fun a => !!(a.ideaId == m.ideaId)) ideas) := by
              rw [List.countP_pos_iff]
              refine ⟨m, List.mem_filter.2 ⟨hmem, by simp⟩, hm⟩
            simp only [hsec, if_true] at hcount
            rw [← hO0m] at hsplit
            omega
          · have hA0e : a0 = [] := by simp [hA0, hm]
            have hRem2 : remaining = (100 : Int) := by rw [hRem, hA0e]; decide
            rw [hA0e, hRem2]
            cases othersTail with
            | nil => exact mineBranch_nil_tail pickCount second
            | cons third rest =>
              by_cases h3 : 3 ≤ pickCount ∧ truthyId third.ideaId = true
              · exfalso
                rw [List.countP_cons] at hcount
                simp only [hsec, h3.2, if_true] at hcount
                omega
              · exact mineBranch_two_way pickCount second third rest h3


theorem buildAutoAllocations_null_of_few_usable (ideas : List IdeaP3) (selfPct : Int) (selfTickerEnv : Str)
    (h : ideas.countP usableP3 < 2) :
    buildAutoAllocations ideas selfPct selfTickerEnv = .null := by
  unfold buildAutoAllocations
  lift_lets
  extract_lets pctSelf list selfTicker si selfIdea allocs0 remaining others k slice base used allocs1 rem2
  have hlen : list.length < 2 := by
    rw [show list = ideas.filter usableP3 from rfl, ← List.countP_eq_length_filter]
    exact h
  rw [if_pos hlen]


/-- Claim C2: for every input list containing fewer than 2 usable options, the
allocation builder returns null.  In `buildAllocations` (conclave_tick.js v2) an
option is usable when its `ideaId` is truthy; in `buildAutoAllocations`
(part_003) an option is usable when it passes `usableP3` (truthy id and ticker). -/
theorem allocation_null_of_too_few_usable
    (ideasA : List IdeaA) (myTicker : Str) (selfAllocPct : Int)
    (ideasP : List IdeaP3) (selfPct : Int) (selfTickerEnv : Str)
    (hA : ideasA.countP (fun x => truthyId x.ideaId) < 2)
    (hP : ideasP.countP usableP3 < 2) :
    buildAllocations ideasA myTicker selfAllocPct = .null ∧
    buildAutoAllocations ideasP selfPct selfTickerEnv = .null :=
  ⟨buildAllocations_null_of_few_truthy ideasA myTicker selfAllocPct hA,
   buildAutoAllocations_null_of_few_usable ideasP selfPct selfTickerEnv hP⟩

theorem allocation_null_of_too_few_usable_witness :
    ([{ ideaId := some (strOf "A"), ticker := strOf "SMOKE" },
      { ideaId := none, ticker := strOf "OTHR" }] : List IdeaA).countP
        (fun x => truthyId x.ideaId) < 2 ∧
    ([{ ideaId := strOf "A", id := strOf "A", ticker := strOf "SMOKE" }] :
        List IdeaP3).countP usableP3 < 2 ∧
    (buildAllocations
        [{ ideaId := some (strOf "A"), ticker := strOf "SMOKE" },
         { ideaId := none, ticker := strOf "OTHR" }] (strOf "SMOKE") 50 = .null ∧
     buildAutoAllocations
        [{ ideaId := strOf "A", id := strOf "A", ticker := strOf "SMOKE" }]
        50 (strOf "SMOKE") = .null) :=
  ⟨by decide, by decide,
   allocation_null_of_too_few_usable
     [{ ideaId := some (strOf "A"), ticker := strOf "SMOKE" },
      { ideaId := none, ticker := strOf "OTHR" }] (strOf "SMOKE") 50
     [{ ideaId := strOf "A", id := strOf "A", ticker := strOf "SMOKE" }]
     50 (strOf "SMOKE") (by decide) (by decide)⟩


/-- Claim C1: refuted on the code: `buildAllocations` (conclave_tick.js v2,
lines 340-410) on two ideas, where the caller's own idea receives 1 percent,
returns the non-null allocation [A := 1, B := 99].  The clamp to 60 runs
before the shortfall `100 - total` is added back onto the last entry, so the
final entry holds 99 > 60 and the claimed cap invariant fails. -/
theorem buildAllocations_cap_violation :
    buildAllocations
      [{ ideaId := some (strOf "A"), ticker := strOf "SMOKE" },
       { ideaId := some (strOf "B"), ticker := strOf "OTHR" }]
      (strOf "SMOKE") 1 =
      .wrapped [⟨strOf "A", 1⟩, ⟨strOf "B", 99⟩] ∧
    ([⟨strOf "A", 1⟩, ⟨strOf "B", 99⟩] : List AllocEntry).any
      (fun e => decide (60 < e.percentage)) = true := by
  decide


theorem isJoinableDebate_true_elim (d : Debate) (hj : isJoinableDebate d = true) :
    (phaseNormStr d.phase ≠ strOf "ended" ∧
     phaseNormStr d.phase ≠ strOf "results" ∧
     phaseNormStr d.phase ≠ strOf "closed") ∧
    ((phaseNormStr d.phase).isEmpty = false → 0 < d.playerCount →
      d.currentPlayers < d.playerCount) := by
  simp only [isJoinableDebate] at hj
  by_cases hemp : (phaseNormStr d.phase).isEmpty = true
  · have hnil : phaseNormStr d.phase = [] := List.isEmpty_iff.1 hemp
    refine ⟨⟨?_, ?_, ?_⟩, ?_⟩ <;> rw [hnil]
    · intro hc; cases hc
    · intro hc; cases hc
    · intro hc; cases hc
    · intro hc; cases (List.isEmpty_nil).symm.trans hc
  · rw [if_neg hemp] at hj
    by_cases hterm : (phaseNormStr d.phase = strOf "ended" ∨
        phaseNormStr d.phase = strOf "results" ∨ phaseNormStr d.phase = strOf "closed")
    · exfalso
      rcases hterm with h1 | h1 | h1 <;> simp [h1] at hj
    · push_neg at hterm
      refine ⟨⟨hterm.1, hterm.2.1, hterm.2.2⟩, ?_⟩
      intro _ hpc
      simp [hterm.1, hterm.2.1, hterm.2.2] at hj
      omega

/-- Claim C3: corrected.  The v2 selector `pickDebatesOrdered` never keeps a
candidate whose normalised phase is terminal ("ended", "results", "closed"),
and never keeps a candidate at known full capacity provided its phase string
is nonempty (an empty phase short-circuits `isJoinableDebate` before the
capacity check); on the claimed scenario it returns exactly the id-2
candidate.  The v1 selector (`orderDebates` + `debateHasRoom` filter) keeps
no full candidate but does keep terminal phases, so the original claim fails
for it. -/
theorem selector_excludes_terminal_and_full
    (debates : List Debate) (d : Debate)
    (hd : d ∈ pickDebatesOrdered debates) :
    (phaseNormStr d.phase ≠ strOf "ended" ∧
     phaseNormStr d.phase ≠ strOf "results" ∧
     phaseNormStr d.phase ≠ strOf "closed") ∧
    ((phaseNormStr d.phase).isEmpty = false → 0 < d.playerCount →
      d.currentPlayers < d.playerCount) ∧
    (∀ e ∈ selectOrderV1 debates, debateHasRoom e = true) ∧
    pickDebatesOrdered
      [{ id := 1, phase := strOf "ended" },
       { id := 2, phase := strOf "debate", playerCount := 5 }] =
      [{ id := 2, phase := strOf "debate", playerCount := 5 }] := by
  have hj : isJoinableDebate d = true := by
    simp only [pickDebatesOrdered] at hd
    have hmem := (mem_map_fst_sortOrd _ _ _ _).1 hd
    exact (List.mem_filter.1 hmem).2
  obtain ⟨hterm, hfull⟩ := isJoinableDebate_true_elim d hj
  refine ⟨hterm, hfull, ?_, by decide⟩
  intro e he
  exact List.of_mem_filter he

theorem selector_excludes_terminal_and_full_witness :
    phaseNormStr ({ id := 2, phase := strOf "debate", playerCount := 5 } : Debate).phase ≠
      strOf "ended" :=
  (selector_excludes_terminal_and_full
    [{ id := 1, phase := strOf "ended" },
     { id := 2, phase := strOf "debate", playerCount := 5 }]
    { id := 2, phase := strOf "debate", playerCount := 5 }
    (by decide)).1.1

/-- Counterexample to claim C3 as stated: the v1 selector keeps the
terminal-phase candidate (after the id-2 one), and the v2 selector keeps a
candidate at known full capacity when its phase string is empty. -/
theorem selector_terminal_counterexample :
    selectOrderV1
      [{ id := 1, phase := strOf "ended" },
       { id := 2, phase := strOf "debate", playerCount := 5 }] =
      [{ id := 2, phase := strOf "debate", playerCount := 5 },
       { id := 1, phase := strOf "ended" }] ∧
    pickDebatesOrdered
      [{ id := 3, phase := [], playerCount := 2, currentPlayers := 2 }] =
      [{ id := 3, phase := [], playerCount := 2, currentPlayers := 2 }] := by
  decide


/-- Claim C4: `classifyDebate` is total: on every input (including the empty
string) it returns one of the seven fixed categories; the keyword sets are
tested in a fixed priority order with the first match winning (an oracle
keyword forces `.oracle` regardless of later sets, e.g. markets); `.unknown`
is returned exactly when no keyword set matches. -/
theorem classifyDebate_total_first_match (text : Str) :
    classifyDebate text ∈ [Category.oracle, Category.identity, Category.governance,
      Category.markets, Category.interop, Category.privacy, Category.unknown] ∧
    (hasAnyKey (lowerStr text) oracleKeys = true → classifyDebate text = .oracle) ∧
    (classifyDebate text = .unknown ↔
      (hasAnyKey (lowerStr text) oracleKeys = false ∧
       hasAnyKey (lowerStr text) identityKeys = false ∧
       hasAnyKey (lowerStr text) governanceKeys = false ∧
       hasAnyKey (lowerStr text) marketsKeys = false ∧
       hasAnyKey (lowerStr text) interopKeys = false ∧
       hasAnyKey (lowerStr text) privacyKeys = false)) ∧
    classifyDebate [] = .unknown := by
  refine ⟨?_, ?_, ?_, by decide⟩
  · simp only [classifyDebate]
    split_ifs <;> simp
  · intro h
    simp only [classifyDebate]
    rw [if_pos h]
  · simp only [classifyDebate]
    split_ifs with h1 h2 h3 h4 h5 h6 <;> simp_all


theorem proposalBody_length (intro : Str) (b : TemplateBlocks) :
    (proposalBody intro b).length = intro.length + (proposalBody [] b).length := by
  simp [proposalBody, sjoin, List.length_append]
  omega

theorem proposalBody_has_mechanism (intro : Str) (b : TemplateBlocks) :
    strOf "Mechanism: " <:+: proposalBody intro b := by
  have hdec : proposalBody intro b =
      (strOf "Title: Practical design for this brief" ++ strOf "\n" ++ intro ++
        strOf "\n" ++ strOf "\n") ++ strOf "Mechanism: " ++
      (b.mech ++ strOf "\n" ++ sjoin (strOf "\n")
        [[], strOf "Onchain Design: " ++ b.design,
         [], strOf "Incentives: " ++ b.incent,
         [], strOf "Attack Vectors + Mitigations: " ++ b.attacks,
         [], strOf "Tradeoffs: " ++ b.trade,
         [], strOf "Why this wins: enforceable incentives + explicit failure handling, not slogans."]) := by
    simp [proposalBody, sjoin]
  exact ⟨_, _, hdec.symm⟩

theorem buildProposal_known_aux (text : Str) (c : Category) (b : TemplateBlocks)
    (hb : templateBlocks c = some b)
    (hbody : (proposalBody [] b).length ≤ 2637) :
    ∃ s, buildProposal text c = some s ∧ s.length ≤ 2800 ∧
      jsIncludes s (strOf "Mechanism: ") = true := by
  have heq : buildProposal text c = some (snip (proposalBody
      (strOf "Problem (restated): " ++
        snip (firstNonemptyLine (trimStr text) (strOf "Debate brief")) 140) b) 2800) := by
    simp [buildProposal, hb]
  have hintro : (strOf "Problem (restated): " ++
      snip (firstNonemptyLine (trimStr text) (strOf "Debate brief")) 140).length ≤ 163 := by
    have h1 := snip_length_le (firstNonemptyLine (trimStr text) (strOf "Debate brief")) 140
    have h2 : (strOf "Problem (restated): ").length = 20 := by decide
    simp only [List.length_append]
    omega
  have hlen : (proposalBody (strOf "Problem (restated): " ++
      snip (firstNonemptyLine (trimStr text) (strOf "Debate brief")) 140) b).length ≤ 2800 := by
    rw [proposalBody_length]
    omega
  rw [heq, snip_eq_of_le hlen]
  refine ⟨_, rfl, hlen, ?_⟩
  exact decide_eq_true (proposalBody_has_mechanism _ b)


set_option maxRecDepth 4000 in
/-- Claim C5: `buildProposal` returns null exactly for the unknown category;
for every known category and every text it returns a non-null string of at
most 2800 characters (the fixed templates plus the 143-character-capped
restated brief never reach the `snip` ceiling) containing the
"Mechanism: " section; and on the claimed scenario text the classifier
yields `.oracle`, whose proposal is non-null. -/
theorem buildProposal_spec (text : Str) (category : Category) :
    buildProposal text Category.unknown = none ∧
    (category ≠ Category.unknown →
      ∃ s, buildProposal text category = some s ∧ s.length ≤ 2800 ∧
        jsIncludes s (strOf "Mechanism: ") = true) ∧
    classifyDebate (strOf "This proposal is about a decentralized price oracle feed") =
      Category.oracle ∧
    buildProposal (strOf "This proposal is about a decentralized price oracle feed")
      Category.oracle ≠ none := by
  have hknown : ∀ (t : Str) (c : Category), c ≠ Category.unknown →
      ∃ s, buildProposal t c = some s ∧ s.length ≤ 2800 ∧
        jsIncludes s (strOf "Mechanism: ") = true := by
    intro t c hc
    cases c with
    | unknown => exact absurd rfl hc
    | oracle => exact buildProposal_known_aux t _ _ rfl (by decide)
    | identity => exact buildProposal_known_aux t _ _ rfl (by decide)
    | governance => exact buildProposal_known_aux t _ _ rfl (by decide)
    | markets => exact buildProposal_known_aux t _ _ rfl (by decide)
    | interop => exact buildProposal_known_aux t _ _ rfl (by decide)
    | privacy => exact buildProposal_known_aux t _ _ rfl (by decide)
  refine ⟨rfl, hknown text category, by decide, ?_⟩
  obtain ⟨s, hs, -, -⟩ := hknown
    (strOf "This proposal is about a decentralized price oracle feed")
    Category.oracle (by decide)
  simp [hs]


/-- Claim C7: corrected.  The first variant's join loop issues at most 10
join POSTs unconditionally (`Math.min(10, ordered.length)` positions); the
second variant's bound is the configured `CONCLAVE_MAX_JOIN_ATTEMPTS`
(default 5), so its attempts stay within 10 only when the configured cap
does. -/
theorem joinAttempts_bounded (debates : List Debate) (resp : Nat → JoinOutcome)
    (cap : Int) (hcap : cap ≤ 10) :
    joinAttemptsV1 debates resp ≤ 10 ∧
    joinAttemptsV2 cap debates resp ≤ 10 := by
  constructor
  · refine le_trans (countJoinsFrom_le_length resp _ 0) ?_
    rw [List.length_take]
    omega
  · refine le_trans (countJoinsFrom_le_length resp _ 0) ?_
    rw [List.length_take]
    omega

theorem joinAttempts_bounded_witness :
    (5 : Int) ≤ 10 ∧
    (joinAttemptsV1 twelveDebates (fun _ => .soft) ≤ 10 ∧
     joinAttemptsV2 5 twelveDebates (fun _ => .soft) ≤ 10) :=
  ⟨by decide, joinAttempts_bounded twelveDebates (fun _ => .soft) 5 (by decide)⟩

/-- Counterexample to claim C7 as stated: with `CONCLAVE_MAX_JOIN_ATTEMPTS`
set to 12 and twelve joinable candidates all answering with soft
rejections, the second variant's loop issues 12 join POSTs, more than the
claimed universal bound of 10. -/
theorem joinAttempts_cap_counterexample :
    10 < joinAttemptsV2 12 twelveDebates (fun _ => .soft) ∧
    joinAttemptsV2 12 twelveDebates (fun _ => .soft) = 12 := by
  constructor <;> decide


theorem tg_exit_ok (b : Bool) (c : Nat)
    (h : (do tgSendM b; pure 0 : Except JsErr Nat) = .ok c) : c = 0 := by
  cases b with
  | false => simp [tgSendM, Bind.bind, Except.bind] at h
  | true =>
    simp [tgSendM, Bind.bind, Except.bind, Pure.pure, Except.pure] at h
    omega

theorem except_bind_ok {α β : Type} (x : Except JsErr α) (f : α → Except JsErr β)
    (b : β) (h : (x >>= f) = .ok b) : ∃ a, x = .ok a ∧ f a = .ok b := by
  cases x with
  | error e => cases h
  | ok a => exact ⟨a, rfl, h⟩

theorem joinLoopV1_ok (w : WorldV1) :
    ∀ (l : List (Nat × Debate)) (c : Nat), joinLoopV1 w l = .ok c → c = 0 := by
  intro l
  induction l with
  | nil =>
    intro c h
    simp only [joinLoopV1] at h
    cases h
    rfl
  | cons p rest ih =>
    intro c h
    obtain ⟨idx, d⟩ := p
    simp only [joinLoopV1] at h
    split at h
    · exact ih c h
    · split at h
      · cases h
      · split at h
        · exact tg_exit_ok w.tgOk c h
        · split at h
          · exact ih c h
          · exact tg_exit_ok w.tgOk c h


theorem mainV1_ok_zero (env : EnvV1) (w : WorldV1) (c : Nat)
    (h : mainV1 env w = .ok c) : c = 0 := by
  unfold mainV1 at h
  obtain ⟨v1, -, h⟩ := except_bind_ok _ _ _ h
  obtain ⟨v2, -, h⟩ := except_bind_ok _ _ _ h
  obtain ⟨v3, -, h⟩ := except_bind_ok _ _ _ h
  obtain ⟨sres, -, h⟩ := except_bind_ok _ _ _ h
  split at h
  · exact tg_exit_ok w.tgOk c h
  · split at h
    · exact tg_exit_ok w.tgOk c h
    · simp only [] at h
      split at h
      · obtain ⟨dres, -, h⟩ := except_bind_ok _ _ _ h
        split at h
        · exact tg_exit_ok w.tgOk c h
        · split at h
          · exact tg_exit_ok w.tgOk c h
          · split at h
            · injection h with h2; omega
            · exact joinLoopV1_ok w _ c h
      · split at h
        · exact tg_exit_ok w.tgOk c h
        · injection h with h2; omega


theorem joinLoopP3_ok (w : WorldP3) (maxA : Nat) :
    ∀ (l : List DebateP3) (tried c : Nat), joinLoopP3 w maxA l tried = .ok c → c = 0 := by
  intro l
  induction l with
  | nil =>
    intro tried c h
    simp only [joinLoopP3] at h
    cases h
    rfl
  | cons d rest ih =>
    intro tried c h
    simp only [joinLoopP3] at h
    split at h
    · cases h; rfl
    · split at h
      · exact ih tried c h
      · split at h
        · exact ih tried c h
        · split at h
          · exact ih tried c h
          · split at h
            · cases h
            · split at h
              · exact tg_exit_ok w.tgOk c h
              · split at h
                · exact ih (tried + 1) c h
                · exact tg_exit_ok w.tgOk c h


set_option maxHeartbeats 1000000 in
theorem commentRefinePhase_ok (w : WorldP3) (sj : StatusJsonP3)
    (ideas : List IdeaP3) (username : Str) (c : Nat)
    (h : commentRefinePhase w sj ideas username = .ok c) : c = 0 := by
  unfold commentRefinePhase at h
  repeat'
    first
    | split at h
    | exact tg_exit_ok w.tgOk c h
    | exact (Except.ok.inj h).symm
    | cases h
    | simp only [] at h


set_option maxHeartbeats 1000000 in
theorem mainP3_ok_zero (env : EnvP3) (w : WorldP3) (c : Nat)
    (h : mainP3 env w = .ok c) : c = 0 := by
  unfold mainP3 at h
  obtain ⟨v1, -, h⟩ := except_bind_ok _ _ _ h
  obtain ⟨v2, -, h⟩ := except_bind_ok _ _ _ h
  obtain ⟨v3, -, h⟩ := except_bind_ok _ _ _ h
  obtain ⟨v4, -, h⟩ := except_bind_ok _ _ _ h
  repeat'
    first
    | exact commentRefinePhase_ok w _ _ _ c h
    | exact joinLoopP3_ok w _ _ _ c h
    | split at h
    | exact tg_exit_ok w.tgOk c h
    | exact (Except.ok.inj h).symm
    | cases h
    | simp only [] at h
    | obtain ⟨r, -, h⟩ := except_bind_ok _ _ _ h

theorem runTickP3_zero (env : EnvP3) (w : WorldP3) : runTickP3 env w = 0 := by
  unfold runTickP3
  split
  · rename_i c hc
    exact mainP3_ok_zero env w c hc
  · rfl


/-- Claim C8: corrected.  In the conclave_tick.js variant the claimed policy
holds: every completed run (every `process.exit(code)` reached by the main
body) exits 0, and a thrown error reaching the top-level `.catch` exits 1.
In part_003 the top-level catch handler merely returns after its best-effort
notification — it never calls `process.exit` with a non-zero code — so the
process exits 0 on every run, including ones ended by an unhandled
exception. -/
theorem exit_code_policy (env1 : EnvV1) (w1 : WorldV1) (env3 : EnvP3) (w3 : WorldP3) :
    (∀ c, mainV1 env1 w1 = .ok c → runTickV1 env1 w1 = 0) ∧
    (∀ e, mainV1 env1 w1 = .error e → runTickV1 env1 w1 = 1) ∧
    runTickP3 env3 w3 = 0 := by
  refine ⟨?_, ?_, runTickP3_zero env3 w3⟩
  · intro c hc
    unfold runTickV1
    rw [hc]
    exact mainV1_ok_zero env1 w1 c hc
  · intro e he
    unfold runTickV1
    rw [he]

/-- Counterexample to claim C8 as stated: a part_003 run with an empty
environment throws `CONCLAVE_TOKEN_MISSING`, an unhandled exception that
reaches the top-level catch, yet the process exit code is 0, not
non-zero. -/
theorem exit_code_counterexample :
    mainP3 {} {} = .error (.envMissing (strOf "CONCLAVE_TOKEN")) ∧
    runTickP3 {} {} = 0 :=
  ⟨rfl, rfl⟩


/-- Claim C10: a candidate with an absent/empty phase is treated as
eligible: `isJoinableDebate` returns true for it (the empty-phase test
short-circuits before everything else), the v2 selector keeps it in the
ordered output, its phase scores in the lowest priority band (weight 10,
the minimum of `phaseWeight`), and part_001's `joinableDebate` also accepts
it when its id is truthy and it has room. -/
theorem emptyPhase_joinable (d : Debate) (debates : List Debate)
    (hphase : phaseNormStr d.phase = [])
    (hmem : d ∈ debates) :
    isJoinableDebate d = true ∧
    d ∈ pickDebatesOrdered debates ∧
    phaseWeightV2 d.phase = 10 ∧
    (∀ p, 10 ≤ phaseWeightV2 p) ∧
    (d.id ≠ 0 → debateHasRoom d = true → joinableDebate d = true) := by
  have hj : isJoinableDebate d = true := by
    simp [isJoinableDebate, hphase]
  refine ⟨hj, ?_, ?_, ?_, ?_⟩
  · simp only [pickDebatesOrdered]
    exact (mem_map_fst_sortOrd _ _ _ _).2 (List.mem_filter.2 ⟨hmem, hj⟩)
  · simp [phaseWeightV2, hphase, strOf]
  · intro p
    simp only [phaseWeightV2]
    split_ifs <;> omega
  · intro hid hroom
    simp [joinableDebate, hphase, hid, hroom, strOf]

theorem emptyPhase_joinable_witness :
    isJoinableDebate { id := 7 } = true ∧
    ({ id := 7 } : Debate) ∈ pickDebatesOrdered [{ id := 7 }] :=
  ⟨(emptyPhase_joinable { id := 7 } [{ id := 7 }] rfl (by decide)).1,
   (emptyPhase_joinable { id := 7 } [{ id := 7 }] rfl (by decide)).2.1⟩
